import Mathlib

/-!
Verification of the normalization / panel-construction core of
`ibge-sidra-ranking-municipios` (`src/prep.py`).

The pandas code is shallowly embedded as follows:
* a DataFrame cell is a `PVal` (string, nullable Int64 integer, float, NaN/NA,
  or an infinity); float NaN and pandas NA are identified as `PVal.na`, which
  matches `notna` semantics throughout the code under verification;
* finite floats are modelled as exact rationals (`ℚ`);
* a DataFrame is a list of column labels plus a list of rows (`DF`); the
  DataFrames manipulated by the source are built from `sidrapy` records and
  have pairwise distinct column labels, and cell lookup is by first label
  occurrence;
* raising Python code is modelled with `Except String`;
* each definition mirrors one function or one pandas operation of
  `src/prep.py`; line numbers in comments refer to that file.
-/

/-- Cell value of a modelled pandas DataFrame. `na` stands for both float NaN
and pandas `NA` (they agree on every `notna`/`dropna` test performed by the
source). -/
inductive PVal where
  | na : PVal
  | s : String → PVal
  | i : Int → PVal
  | q : ℚ → PVal
  | inf : PVal
  | ninf : PVal
deriving DecidableEq, Repr

/-- Modelled DataFrame: column labels plus rows of cells. -/
structure DF where
  cols : List String
  rows : List (List PVal)
deriving DecidableEq, Repr

/-- Index of the first column with the given label, as pandas label lookup. -/
def DF.colIdx (df : DF) (c : String) : Option Nat :=
  df.cols.findIdx? (fun x => x = c)

/-- Cell of a row at a named column (`row[c]` for a row of `df`). -/
def DF.cellOf (df : DF) (r : List PVal) (c : String) : PVal :=
  match df.colIdx c with
  | some i => r.getD i .na
  | none => .na

/-- Column of a DataFrame as a list of cells (`df[c]`). -/
def DF.col (df : DF) (c : String) : List PVal :=
  df.rows.map (fun r => df.cellOf r c)

/-- Whitespace test for the `\s` class used by `_norm` (prep.py line 13). -/
def isWsChar (c : Char) : Bool :=
  c = ' ' || c = '\t' || c = '\n' || c = '\r' || c = '\x0b' || c = '\x0c'

/-- Lower-casing of one character, covering ASCII and the Latin-1 accented
range used by the SIDRA column names (model of `str.lower`). -/
def lowerChar (c : Char) : Char :=
  if ('A' ≤ c && c ≤ 'Z') || ('À' ≤ c && c ≤ 'Þ' && c ≠ '×') then
    Char.ofNat (c.toNat + 32)
  else c

/-- Collapse every whitespace run to a single space, tracking whether the
previous character was whitespace (`re.sub(r"\s+", " ", s)`). -/
def collapseWsAux (prevWs : Bool) : List Char → List Char
  | [] => []
  | c :: cs =>
    if isWsChar c then
      if prevWs then collapseWsAux true cs
      else ' ' :: collapseWsAux true cs
    else c :: collapseWsAux false cs

/-- Collapse every whitespace run to a single space. -/
def collapseWs (l : List Char) : List Char :=
  collapseWsAux false l

/-- Strip leading and trailing whitespace (`str.strip`). -/
def stripWs (l : List Char) : List Char :=
  ((l.dropWhile isWsChar).reverse.dropWhile isWsChar).reverse

/-- Model of `_norm` (prep.py lines 12-13): collapse whitespace, strip,
lower-case. -/
def _norm (s : String) : String :=
  String.mk (((collapseWs s.toList).reverse.dropWhile isWsChar).reverse.dropWhile isWsChar |>.map lowerChar)

/-- Decide whether `needle` occurs at the head of `hay`. -/
def listStarts : List Char → List Char → Bool
  | [], _ => true
  | _ :: _, [] => false
  | a :: as, b :: bs => a = b && listStarts as bs

/-- Decide whether `needle` occurs somewhere inside `hay` (Python `in` on
strings). -/
def listHas (needle : List Char) : List Char → Bool
  | [] => listStarts needle []
  | c :: cs => listStarts needle (c :: cs) || listHas needle cs

/-- Substring test on strings. -/
def strHas (hay needle : String) : Bool :=
  listHas needle.toList hay.toList

/-- Model of `_find_col` (prep.py lines 16-31): first column whose normalized
name contains all of `must_contain` and, when given, at least one of
`any_of`. -/
def _find_col (df : DF) (must_contain : List String) (any_of : Option (List String) := none) : Option String :=
  df.cols.find? (fun c =>
    let cn := _norm c
    must_contain.all (fun t => strHas cn t) &&
      (match any_of with
       | none => true
       | some l => l.any (fun t => strHas cn t)))

/-- Numeric value of a list of decimal digit characters. -/
def digitsToNat (ds : List Char) : Nat :=
  ds.foldl (fun a c => a * 10 + (c.toNat - 48)) 0

/-- Parse an optional exponent suffix (`e±ddd`) applied to an exact decimal
mantissa `num / den`; an empty remainder returns the mantissa itself, anything
else fails. Part of the model of Python float parsing used by
`pandas.to_numeric`. The rational is assembled with `mkRat` from the integer
numerator and denominator (the exact value of the literal). -/
def parseExpPart (num : Int) (den : Nat) (l : List Char) : Option ℚ :=
  match l with
  | [] => some (mkRat num den)
  | c :: rest =>
    if c = 'e' || c = 'E' then
      let sgnRest : Bool × List Char :=
        match rest with
        | '+' :: r => (false, r)
        | '-' :: r => (true, r)
        | r => (false, r)
      let ds := sgnRest.2.takeWhile Char.isDigit
      let r3 := sgnRest.2.dropWhile Char.isDigit
      if ds.isEmpty || !r3.isEmpty then none
      else if sgnRest.1 then some (mkRat num (den * 10 ^ digitsToNat ds))
      else some (mkRat (num * (10 : Int) ^ digitsToNat ds) den)
    else none

/-- Parse a decimal float literal (optional sign, integer part, optional
fractional part, optional exponent), the string grammar accepted by
`float()`/`pandas.to_numeric`; anything else is `none` (pandas
`errors="coerce"` turns it into NaN). -/
def parseFloat? (s : String) : Option ℚ :=
  let l := s.toList
  let sgnRest : Bool × List Char :=
    match l with
    | '+' :: r => (false, r)
    | '-' :: r => (true, r)
    | r => (false, r)
  let ip := sgnRest.2.takeWhile Char.isDigit
  let rest := sgnRest.2.dropWhile Char.isDigit
  let core : Option ℚ :=
    match rest with
    | '.' :: r2 =>
      let fp := r2.takeWhile Char.isDigit
      let r3 := r2.dropWhile Char.isDigit
      if ip.isEmpty && fp.isEmpty then none
      else parseExpPart (digitsToNat (ip ++ fp)) (10 ^ fp.length) r3
    | r2 => if ip.isEmpty then none else parseExpPart (digitsToNat ip) 1 r2
  core.map (fun v => if sgnRest.1 then -v else v)

/-- String rendering of a cell, model of `series.astype(str)` on one cell
(prep.py line 38). The raw SIDRA tables handled by the source carry string
cells, so only the string and integer cases are exercised. -/
def cellStr : PVal → String
  | .s v => v
  | .i n => toString n
  | .na => "nan"
  | .q _ => ""
  | .inf => "inf"
  | .ninf => "-inf"

/-- Embed an optional number as a float cell (`none` is NaN). -/
def pvOfNum : Option ℚ → PVal
  | some q => .q q
  | none => .na

/-- Model of `_coerce_numeric` (prep.py lines 34-39) on one cell: view the cell
as text, drop every `.`, turn every `,` into `.`, and parse as a float;
failures give `none` (NaN). -/
def _coerce_numeric_cell (v : PVal) : Option ℚ :=
  parseFloat? (String.mk (((cellStr v).toList.filter (fun c => c ≠ '.')).map
    (fun c => if c = ',' then '.' else c)))

/-- Model of `_coerce_numeric` on a whole column. -/
def _coerce_numeric (l : List PVal) : List PVal :=
  l.map (fun v => pvOfNum (_coerce_numeric_cell v))

/-- Model of `pd.to_numeric(col, errors="coerce")` on one cell: strings are
parsed as plain float literals (no separator normalization), numbers pass
through, anything unparsable becomes NaN. -/
def toNumericCell : PVal → PVal
  | .s v => pvOfNum (parseFloat? v)
  | x => x

/-- Model of `.astype("Int64")` on one cell: a float cast succeeds exactly for
integral values (pandas `safe_cast` raises `TypeError: cannot safely cast
non-equivalent float64 to int64` otherwise); NA stays NA. -/
def castInt64Cell (v : PVal) : Except String PVal :=
  match v with
  | .q x => if x.den = 1 then .ok (.i x.num) else .error "cannot safely cast non-equivalent float64 to int64"
  | .i n => .ok (.i n)
  | .na => .ok .na
  | _ => .error "cannot safely cast non-equivalent float64 to int64"

/-- Model of `.astype("Int64")` on a whole column. -/
def castInt64Col : List PVal → Except String (List PVal)
  | [] => .ok []
  | v :: t =>
    match castInt64Cell v, castInt64Col t with
    | .ok w, .ok ws => .ok (w :: ws)
    | .error e, _ => .error e
    | .ok _, .error e => .error e

/-- Model of `pd.to_numeric(col, errors="coerce").astype("Int64")`, the
conversion applied to code and time columns (prep.py lines 121, 126, 143,
188). -/
def toInt64Col (l : List PVal) : Except String (List PVal) :=
  castInt64Col (l.map toNumericCell)

/-- NA test on a cell (`notna` is its negation). -/
def pvIsNa : PVal → Bool
  | .na => true
  | _ => false

/-- Model of `_drop_header_like_rows` (prep.py lines 42-50): when a `V` column
exists, keep only the rows whose `V` cell coerces to a number. -/
def _drop_header_like_rows (df : DF) : DF :=
  if df.cols.contains "V" then
    ⟨df.cols, df.rows.filter (fun r => (_coerce_numeric_cell (df.cellOf r "V")).isSome)⟩
  else df

/-- Model of the municipality-code half of `_extract_muni_cols`
(prep.py line 58). -/
def muniCodeCol (df : DF) : Option String :=
  _find_col df ["munic"] (some ["código", "codigo"])

/-- Model of the municipality-name half of `_extract_muni_cols`
(prep.py lines 60-65): first column containing "munic" but no code token. -/
def muniNameCol (df : DF) : Option String :=
  df.cols.find? (fun c =>
    let cn := _norm c
    strHas cn "munic" && !strHas cn "código" && !strHas cn "codigo")

/-- Model of the territory-code fallback (prep.py line 124). -/
def terrCodeCol (df : DF) : Option String :=
  _find_col df ["territ"] (some ["código", "codigo"])

/-- Model of the territory-name fallback (prep.py lines 133-138). -/
def terrNameCol (df : DF) : Option String :=
  df.cols.find? (fun c =>
    let cn := _norm c
    strHas cn "territ" && !strHas cn "código" && !strHas cn "codigo")

/-- Model of `_extract_time_col` (prep.py lines 69-84): a year column
(preferring one with a code token), else month, else period. -/
def _extract_time_col (df : DF) : Option String :=
  match _find_col df ["ano"] (some ["código", "codigo"]) with
  | some c => some c
  | none =>
    match _find_col df ["ano"] with
    | some c => some c
    | none =>
      match _find_col df ["mês"] with
      | some c => some c
      | none =>
        match _find_col df ["mes"] with
        | some c => some c
        | none =>
          match _find_col df ["período"] with
          | some c => some c
          | none => _find_col df ["periodo"]

/-- Test for the SIDRA extra-dimension column patterns `^D\d+C$` and `^D\d+N$`
(prep.py line 154). -/
def isDimCol (s : String) : Bool :=
  match s.toList with
  | 'D' :: rest =>
    match rest.reverse with
    | last :: revMid => (last = 'C' || last = 'N') && !revMid.isEmpty && revMid.all Char.isDigit
    | [] => false
  | _ => false

/-- Model of the column assignment `df[c] = vals`: replace the column in place
when the label exists, append it otherwise; an assignment to an empty
DataFrame creates its rows. -/
def DF.assign (df : DF) (c : String) (vals : List PVal) : DF :=
  if df.cols.isEmpty then ⟨[c], vals.map (fun v => [v])⟩
  else
    match df.cols.findIdx? (fun x => x = c) with
    | some i => ⟨df.cols, List.zipWith (fun r v => r.set i v) df.rows vals⟩
    | none => ⟨df.cols ++ [c], List.zipWith (fun r v => r ++ [v]) df.rows vals⟩

/-- The error message of prep.py line 114. -/
def missingVMsg : String := "Não encontrei a coluna 'V' (valor) no retorno do SIDRA."

/-- Column chosen for the municipality code: the municipality-code heuristic,
else the territory-code fallback (prep.py lines 120-126). -/
def chosenCodeCol (df : DF) : Option String :=
  match muniCodeCol df with
  | some c => some c
  | none => terrCodeCol df

/-- The `code_muni` column of the tidy output before filtering
(prep.py lines 120-128): coerced/cast cells of the chosen code column, or all
NA when no column was discovered. The cell values are exact; the index the
line-128 fallback series carries (it becomes the frame's index) is tracked
separately by `outIdxOf` for the alignment-aware model
`normalize_sidra_table_ix`. -/
def codesCol (df : DF) : Except String (List PVal) :=
  match chosenCodeCol df with
  | some c => toInt64Col (df.col c)
  | none => .ok (List.replicate df.rows.length .na)

/-- The `municipio` column of the tidy output (prep.py lines 130-139):
stringified cells of the name column (municipality, else territory), or empty
strings. This positional form coincides with pandas whenever the assigned
series' labels match the frame's index (true of every name-column case, and
of the `""` fallback when the header filter dropped nothing); the label
realignment pandas applies otherwise is made explicit in `munisColIx` and
`normalize_sidra_table_ix`, used for the error/degradation analysis. -/
def munisCol (df : DF) : List PVal :=
  match muniNameCol df with
  | some c => (df.col c).map (fun v => .s (cellStr v))
  | none =>
    match terrNameCol df with
    | some c => (df.col c).map (fun v => .s (cellStr v))
    | none => List.replicate df.rows.length (.s "")

/-- The `ano` column of the tidy output before filtering
(prep.py lines 141-145). As with `munisCol` this is the positional form; the
line-145 fallback is an all-NA series, so its realignment (explicit in
`anosColIx`) again yields all-NA cells. -/
def anosCol (df : DF) : Except String (List PVal) :=
  match _extract_time_col df with
  | some c => toInt64Col (df.col c)
  | none => .ok (List.replicate df.rows.length .na)

/-- The value column of the tidy output (prep.py lines 115 and 147). -/
def valsCol (df : DF) : List PVal :=
  _coerce_numeric (df.col "V")

/-- Model of `normalize_sidra_table` (prep.py lines 90-166). The steps follow
the source line by line: drop header-like rows, discover the municipality /
time columns, fail without a `V` column, build the `code_muni`, `municipio`,
`ano` and value columns (code and time columns go through
`pd.to_numeric(..., errors="coerce").astype("Int64")`, which raises on
non-integral floats), optionally carry the `D*C`/`D*N` dimension columns,
drop rows without a value, and re-cast the nullable integer columns. -/
def normalize_sidra_table (df_raw : DF) (value_name : String) (keep_extra_dims : Bool := false) :
    Except String DF :=
  let df := _drop_header_like_rows df_raw
  if df.cols.contains "V" then
    match codesCol df with
    | .error e => .error e
    | .ok codes =>
      let munis : List PVal := munisCol df
      match anosCol df with
      | .error e => .error e
      | .ok anos =>
        let vals : List PVal := valsCol df
        let out0 : DF :=
          ((((DF.mk [] []).assign "code_muni" codes).assign "municipio" munis).assign
            "ano" anos).assign value_name vals
        let out1 : DF :=
          if keep_extra_dims then
            (df.cols.filter isDimCol).foldl (fun o c => o.assign c (df.col c)) out0
          else out0
        let out2 : DF := ⟨out1.cols, out1.rows.filter (fun r => !pvIsNa (out1.cellOf r value_name))⟩
        match castInt64Col (out2.col "code_muni") with
        | .error e => .error e
        | .ok codes2 =>
          let out3 := out2.assign "code_muni" codes2
          match castInt64Col (out3.col "ano") with
          | .error e => .error e
          | .ok anos2 => .ok (out3.assign "ano" anos2)
  else .error missingVMsg

/-- Model of `df.rename(columns={old: new})`. -/
def DF.rename (df : DF) (old new : String) : DF :=
  ⟨df.cols.map (fun c => if c = old then new else c), df.rows⟩

/-- Model of column selection `df[[c, ...]]`. Presence of the labels is
checked by the caller (pandas raises `KeyError` otherwise). -/
def DF.select (df : DF) (cs : List String) : DF :=
  ⟨cs, df.rows.map (fun r => cs.map (fun c => df.cellOf r c))⟩

/-- Model of `df.dropna(subset=cs)`: keep the rows whose cells at every listed
column are not NA. -/
def DF.dropna (df : DF) (cs : List String) : DF :=
  ⟨df.cols, df.rows.filter (fun r => cs.all (fun c => !pvIsNa (df.cellOf r c)))⟩

/-- Model of `left.merge(right, on=onKeys, how=..., suffixes=(sl, sr))`.
Output labels are the left labels (overlapping non-key labels suffixed with
`sl`) followed by the non-key right labels (overlapping ones suffixed with
`sr`). Rows come in left-major order: for each left row, the matching right
rows in right order; with `leftJoin` a matchless left row survives padded
with NA. -/
def DF.merge (l r : DF) (onKeys : List String) (leftJoin : Bool) (sl sr : String) : DF :=
  let common := l.cols.filter (fun c => r.cols.contains c && !onKeys.contains c)
  let outL := l.cols.map (fun c => if common.contains c then c ++ sl else c)
  let rKeep := r.cols.filter (fun c => !onKeys.contains c)
  let outR := rKeep.map (fun c => if common.contains c then c ++ sr else c)
  let rowsOut := l.rows.flatMap (fun lr =>
    let ms := r.rows.filter (fun rr => onKeys.all (fun k => l.cellOf lr k = r.cellOf rr k))
    if ms.isEmpty then
      if leftJoin then [lr ++ rKeep.map (fun _ => PVal.na)] else []
    else ms.map (fun rr => lr ++ rKeep.map (fun c => r.cellOf rr c)))
  ⟨outL ++ outR, rowsOut⟩

/-- Stable insertion of `a` into `s`: `a` goes in front of the first element
not strictly below it. -/
def insertBy {α : Type} (lt : α → α → Bool) (a : α) : List α → List α
  | [] => [a]
  | b :: t => if lt b a then b :: insertBy lt a t else a :: b :: t

/-- Stable insertion sort, the model of the stable multi-key sort performed by
`sort_values` (pandas uses `numpy.lexsort`, a stable sort, whenever several
keys are given), and of the sorted group keys of `groupby`. -/
def isortBy {α : Type} (lt : α → α → Bool) (l : List α) : List α :=
  l.foldr (insertBy lt) []

/-- Sort-key class of a cell: finite numbers below `inf` below NaN/NA
(pandas sorts missing values last); strings do not occur among the sort keys
of the source. -/
def pvClass : PVal → Nat
  | .ninf => 0
  | .i _ => 1
  | .q _ => 1
  | .inf => 2
  | .na => 3
  | .s _ => 4

/-- Numeric magnitude of a cell used for intra-class comparison. -/
def pvRat : PVal → ℚ
  | .i n => (n : ℚ)
  | .q x => x
  | _ => 0

/-- Strict comparison of two cells as sort keys. -/
def pvLtB (a b : PVal) : Bool :=
  pvClass a < pvClass b || (pvClass a = pvClass b && pvRat a < pvRat b)

/-- Key equality of two cells as sort keys. -/
def pvKeyEq (a b : PVal) : Bool :=
  pvClass a = pvClass b && pvRat a = pvRat b

/-- Strict row comparison for `sort_values(["ano", "pib"],
ascending=[True, False])` (prep.py line 223): ascending on the cell at
index `ai`, then descending on the cell at index `bi`. -/
def rowLtB (ai bi : Nat) (a b : List PVal) : Bool :=
  pvLtB (a.getD ai .na) (b.getD ai .na) ||
    (pvKeyEq (a.getD ai .na) (b.getD ai .na) && pvLtB (b.getD bi .na) (a.getD bi .na))

/-- Maximum of two cells ignoring NA, the accumulator of a pandas `max`
aggregation. -/
def pvMax2 (a b : PVal) : PVal :=
  match a, b with
  | .na, x => x
  | x, .na => x
  | x, y => if pvLtB x y then y else x

/-- Model of `groupby("code_muni", as_index=False)["area"].max()`
(prep.py lines 195-199) applied after `dropna(subset=["code_muni"])`:
one row per distinct code, in ascending code order (pandas `groupby`
sorts its keys), holding the maximum observed value. -/
def groupMaxBy (df : DF) (key val : String) : DF :=
  let keys := isortBy pvLtB ((df.rows.map (fun r => df.cellOf r key)).dedup)
  ⟨[key, val],
    keys.map (fun k =>
      [k, ((df.rows.filter (fun r => df.cellOf r key = k)).map (fun r => df.cellOf r val)).foldl pvMax2 .na])⟩

/-- Exact quotient of two rationals with a non-zero divisor, assembled with
`mkRat` from the cross product of numerators and denominators (the value of
`x / y`). -/
def ratDivExact (x y : ℚ) : ℚ :=
  let n : Int := x.num * (y.den : Int)
  let d : Int := y.num * (x.den : Int)
  if d < 0 then mkRat (-n) (-d).toNat else mkRat n d.toNat

/-- Float division of two cells, the model of `panel["pib"] / panel["pop"]`
(prep.py line 219): an exact quotient when the divisor is a non-zero finite
number, a signed infinity on division of a non-zero value by zero, NaN on
`0/0` or any NA operand. -/
def pvDiv (a b : PVal) : PVal :=
  let toQ : PVal → Option ℚ := fun v =>
    match v with
    | .q x => some x
    | .i n => some (n : ℚ)
    | _ => none
  match toQ a, toQ b with
  | some x, some y =>
    if y = 0 then
      if x = 0 then .na else if 0 < x then .inf else .ninf
    else .q (ratDivExact x y)
  | _, _ => .na

/-- Strict positivity of a cell (`panel["area"] > 0`; NA compares false). -/
def pvPos : PVal → Bool
  | .q x => 0 < x
  | .i n => 0 < n
  | .inf => true
  | _ => false

/-- Model of prep.py lines 186-188: copy the municipality reference, rename
`id_municipio` to `code_muni` when present, and coerce `code_muni` to nullable
integers (`KeyError` when the column is absent). -/
def munPrep (mun_uf : DF) : Except String DF :=
  let mun := if mun_uf.cols.contains "id_municipio" then mun_uf.rename "id_municipio" "code_muni" else mun_uf
  if mun.cols.contains "code_muni" then
    match toInt64Col (mun.col "code_muni") with
    | .error e => .error e
    | .ok cs => .ok (mun.assign "code_muni" cs)
  else .error "KeyError: 'code_muni'"

/-- Model of the area aggregation (prep.py lines 195-199). -/
def areaAgg (areaT : DF) : DF :=
  groupMaxBy (areaT.dropna ["code_muni"]) "code_muni" "area"

/-- Model of the value-by-population inner join (prep.py lines 201-210). -/
def pibPopJoin (pibT popT : DF) : DF :=
  DF.merge (pibT.dropna ["code_muni", "ano"]) (popT.dropna ["code_muni", "ano"])
    ["code_muni", "ano"] false "" "_pop"

/-- Panel assembly from the prepared reference and the three tidy tables
(prep.py lines 195-220): aggregate areas, join value and population,
left-join the reference names (with pandas' default `_x`/`_y` suffixes, since
both sides carry a `municipio` column) and the aggregated areas, and append
the two derived metric columns. -/
def panelParts (m pibT popT areaT : DF) : DF :=
  let panel1 := pibPopJoin pibT popT
  let panel2 := panel1.merge (m.select ["code_muni", "municipio"]) ["code_muni"] true "_x" "_y"
  let panel3 := panel2.merge (areaAgg areaT) ["code_muni"] true "_x" "_y"
  let panel4 := panel3.assign "pib_pc" (List.zipWith pvDiv (panel3.col "pib") (panel3.col "pop"))
  panel4.assign "pib_km2"
    (List.zipWith (fun a p => if !pvIsNa a && pvPos a then pvDiv p a else .na)
      (panel4.col "area") (panel4.col "pib"))

/-- The name-enrichment merge (prep.py line 213) applied to the joined
value/population panel. -/
def panelJoin2 (m pibT popT : DF) : DF :=
  (pibPopJoin pibT popT).merge (m.select ["code_muni", "municipio"]) ["code_muni"] true "_x" "_y"

/-- The area-enrichment merge (prep.py line 216) applied on top. -/
def panelJoin3 (m pibT popT areaT : DF) : DF :=
  (panelJoin2 m pibT popT).merge (areaAgg areaT) ["code_muni"] true "_x" "_y"

/-- Model of the pre-sort part of `build_panel` (prep.py lines 172-220):
prepare the reference, normalize the three tables, and assemble the panel
(`KeyError` when the prepared reference lacks a `municipio` column, as
raised by `mun[["code_muni", "municipio"]]`). -/
def build_panel_presort (mun_uf pib_raw pop_raw area_raw : DF) : Except String DF := do
  let m ← munPrep mun_uf
  let pibT ← normalize_sidra_table pib_raw "pib"
  let popT ← normalize_sidra_table pop_raw "pop"
  let areaT ← normalize_sidra_table area_raw "area"
  if m.cols.contains "municipio" then
    pure (panelParts m pibT popT areaT)
  else .error "KeyError: 'municipio'"

/-- The final stable sort of `build_panel` (prep.py line 223): ascending
`ano`, descending `pib`. -/
def sortPanel (p : DF) : DF :=
  ⟨p.cols, isortBy (rowLtB ((p.colIdx "ano").getD 0) ((p.colIdx "pib").getD 0)) p.rows⟩

/-- Model of `build_panel` (prep.py lines 172-225): the pre-sort pipeline
followed by the stable sort. -/
def build_panel (mun_uf pib_raw pop_raw area_raw : DF) : Except String DF := do
  let p ← build_panel_presort mun_uf pib_raw pop_raw area_raw
  pure (sortPanel p)

/-- Rows of the tidy table before filtering, as assembled by the four column
assignments of prep.py lines 120-147: one row `[code, name, year, value]` per
surviving raw row. -/
def mkRows4 (cs ms as vs : List PVal) : List (List PVal) :=
  List.zipWith (fun r v => r ++ [v])
    (List.zipWith (fun r v => r ++ [v])
      (List.zipWith (fun r v => r ++ [v]) (cs.map (fun v => [v])) ms) as) vs

/-- Cells on which `.astype("Int64")` does not raise: integral floats,
integers and NA. -/
def intSafeB : PVal → Bool
  | .q x => x.den = 1
  | .i _ => true
  | .na => true
  | _ => false

/-- Sort key of a cell: class first, magnitude second (lexicographically). -/
def pvKeyL (v : PVal) : Lex (Nat × ℚ) :=
  toLex (pvClass v, pvRat v)

/-- Sort key of a panel row for `sort_values(["ano", "pib"],
ascending=[True, False])`: the `ano` key ascending, then the dual of the
`pib` key. -/
def rowKey (ai bi : Nat) (r : List PVal) : Lex ((Lex (Nat × ℚ)) × (Lex (Nat × ℚ))ᵒᵈ) :=
  toLex (pvKeyL (r.getD ai .na), OrderDual.toDual (pvKeyL (r.getD bi .na)))

/-- Python object heap for the frame-effect analysis: the DataFrame objects
alive during one call, indexed by allocation order. -/
structure Heap where
  objs : List DF

/-- Read the object at a reference. -/
def Heap.get (h : Heap) (r : Nat) : DF :=
  h.objs.getD r ⟨[], []⟩

/-- Allocate a fresh object (its reference is the old `objs.length`). -/
def Heap.alloc (h : Heap) (d : DF) : Heap :=
  ⟨h.objs ++ [d]⟩

/-- Mutate the object at a reference in place. -/
def Heap.put (h : Heap) (r : Nat) (d : DF) : Heap :=
  ⟨h.objs.set r d⟩

/-- Imperative rendering of `normalize_sidra_table` (prep.py lines 90-166) as
explicit heap operations: `df = df_raw.copy()` and the filtered `.copy()`
calls allocate, the in-place column assignments `df["__value__"] = ...` and
`out[...] = ...` mutate (`Heap.put`) the objects they target, and the input
object `rdf_raw` is only ever read. Returns the final heap together with the
reference of the produced tidy table or the raised error. -/
def normalize_sidra_table_imp (h0 : Heap) (rdf_raw : Nat) (value_name : String)
    (keep_extra_dims : Bool) : Heap × Except String Nat :=
  -- line 103: df = df_raw.copy()
  let rdf1 := h0.objs.length
  let h1 := h0.alloc (h0.get rdf_raw)
  -- line 104 with lines 47-50: df = _drop_header_like_rows(df), a fresh copy
  let rdf := h1.objs.length
  let h2 := h1.alloc (_drop_header_like_rows (h1.get rdf1))
  let df := h2.get rdf
  if df.cols.contains "V" then
    -- line 115: df["__value__"] = _coerce_numeric(df["V"])
    let h3 := h2.put rdf (df.assign "__value__" (_coerce_numeric (df.col "V")))
    let codesE : Except String (List PVal) := codesCol df
    -- line 118: out = pd.DataFrame()
    let rout := h3.objs.length
    let h4 := h3.alloc ⟨[], []⟩
    match codesE with
    | .error e => (h4, .error e)
    | .ok codes =>
      -- lines 120-128: out["code_muni"] = ...
      let h5 := h4.put rout ((h4.get rout).assign "code_muni" codes)
      let munis : List PVal := munisCol df
      -- lines 130-139: out["municipio"] = ...
      let h6 := h5.put rout ((h5.get rout).assign "municipio" munis)
      let anosE : Except String (List PVal) := anosCol df
      match anosE with
      | .error e => (h6, .error e)
      | .ok anos =>
        -- lines 141-145: out["ano"] = ...
        let h7 := h6.put rout ((h6.get rout).assign "ano" anos)
        -- line 147: out[value_name] = df["__value__"]
        let h8 := h7.put rout ((h7.get rout).assign value_name ((h3.get rdf).col "__value__"))
        -- lines 150-157: extra-dimension passthrough, a loop of out[k] = v
        let h9 :=
          if keep_extra_dims then
            (df.cols.filter isDimCol).foldl (fun hh c => hh.put rout ((hh.get rout).assign c (df.col c))) h8
          else h8
        -- line 160: out = out.loc[out[value_name].notna()].copy(), a fresh copy
        let out1 := h9.get rout
        let rout2 := h9.objs.length
        let h10 := h9.alloc ⟨out1.cols, out1.rows.filter (fun r => !pvIsNa (out1.cellOf r value_name))⟩
        -- lines 163-164: out["code_muni"] / out["ano"] re-cast in place
        match castInt64Col ((h10.get rout2).col "code_muni") with
        | .error e => (h10, .error e)
        | .ok codes2 =>
          let h11 := h10.put rout2 ((h10.get rout2).assign "code_muni" codes2)
          match castInt64Col ((h11.get rout2).col "ano") with
          | .error e => (h11, .error e)
          | .ok anos2 => (h11.put rout2 ((h11.get rout2).assign "ano" anos2), .ok rout2)
  else (h2, .error missingVMsg)

/-- Heap `h'` extends heap `h`: no object alive in `h` has been modified, new
objects may have been allocated. -/
def Heap.Ext (h h' : Heap) : Prop :=
  h.objs.length ≤ h'.objs.length ∧ ∀ i < h.objs.length, h'.get i = h.get i

/-- Imperative rendering of prep.py lines 186-188: copy the municipality
reference (fresh object), rename it when `id_municipio` is present (pandas
`rename` returns a fresh object), then assign the coerced `code_muni` column
in place on the copy. Returns the reference of the prepared object. -/
def munStage (h0 : Heap) (rmun : Nat) : Heap × Except String Nat :=
  let rmun1 := h0.objs.length
  let h1 := h0.alloc (h0.get rmun)
  let renamed := (h1.get rmun1).cols.contains "id_municipio"
  let rmun2 := if renamed then h1.objs.length else rmun1
  let h2 := if renamed then h1.alloc ((h1.get rmun1).rename "id_municipio" "code_muni") else h1
  let mun := h2.get rmun2
  if mun.cols.contains "code_muni" then
    match toInt64Col (mun.col "code_muni") with
    | .error e => (h2, .error e)
    | .ok cs => (h2.put rmun2 (mun.assign "code_muni" cs), .ok rmun2)
  else (h2, .error "KeyError: 'code_muni'")

/-- Imperative rendering of prep.py lines 190-192: the three sequential
normalizations, each working on the evolving heap. -/
def norm3 (h : Heap) (rpib rpop rarea : Nat) : Heap × Except String (Nat × Nat × Nat) :=
  match normalize_sidra_table_imp h rpib "pib" false with
  | (hA, .error e) => (hA, .error e)
  | (hA, .ok a) =>
    match normalize_sidra_table_imp hA rpop "pop" false with
    | (hB, .error e) => (hB, .error e)
    | (hB, .ok b) =>
      match normalize_sidra_table_imp hB rarea "area" false with
      | (hC, .error e) => (hC, .error e)
      | (hC, .ok c) => (hC, .ok (a, b, c))

/-- Imperative rendering of prep.py lines 195-223, everything after the
normalizations: `groupby`, the two `merge`s and the final `sort_values` all
return fresh objects; the two derived-metric column assignments mutate the
last merge result in place. -/
def panelStage (h : Heap) (rmun2 rpibT rpopT rareaT : Nat) : Heap × Except String Nat :=
  let ragg := h.objs.length
  let h7 := h.alloc (areaAgg (h.get rareaT))
  let rp1 := h7.objs.length
  let h8 := h7.alloc (pibPopJoin (h7.get rpibT) (h7.get rpopT))
  let munF := h8.get rmun2
  if munF.cols.contains "municipio" then
    let rp2 := h8.objs.length
    let h9 := h8.alloc ((h8.get rp1).merge (munF.select ["code_muni", "municipio"]) ["code_muni"] true "_x" "_y")
    let rp3 := h9.objs.length
    let h10 := h9.alloc ((h9.get rp2).merge (h9.get ragg) ["code_muni"] true "_x" "_y")
    let p3 := h10.get rp3
    let h11 := h10.put rp3 (p3.assign "pib_pc" (List.zipWith pvDiv (p3.col "pib") (p3.col "pop")))
    let p4 := h11.get rp3
    let h12 := h11.put rp3 (p4.assign "pib_km2"
      (List.zipWith (fun a p => if !pvIsNa a && pvPos a then pvDiv p a else .na) (p4.col "area") (p4.col "pib")))
    let p5 := h12.get rp3
    let rp4 := h12.objs.length
    let h13 := h12.alloc ⟨p5.cols, isortBy (rowLtB ((p5.colIdx "ano").getD 0) ((p5.colIdx "pib").getD 0)) p5.rows⟩
    (h13, .ok rp4)
  else (h8, .error "KeyError: 'municipio'")

/-- Imperative rendering of `build_panel` (prep.py lines 172-225), composed
from the three stages above. The four argument references are only ever
read. -/
def build_panel_imp (h0 : Heap) (rmun rpib rpop rarea : Nat) : Heap × Except String Nat :=
  match munStage h0 rmun with
  | (hA, .error e) => (hA, .error e)
  | (hA, .ok rmun2) =>
    match norm3 hA rpib rpop rarea with
    | (hB, .error e) => (hB, .error e)
    | (hB, .ok rT) => panelStage hB rmun2 rT.1 rT.2.1 rT.2.2

/-- Concrete municipality reference (as produced by the localities endpoint):
columns `id_municipio`, `municipio`. -/
def cMun : DF := ⟨["id_municipio", "municipio"], [[.i 1, .s "Alpha"], [.i 2, .s "Beta"]]⟩

/-- Concrete raw SIDRA value table (GDP): codes 1, 2 and 4 in year 2020. -/
def cPib : DF := ⟨["Município (Código)", "Município", "Ano", "V"],
  [[.s "1", .s "alpha", .s "2020", .s "100"],
   [.s "2", .s "beta", .s "2020", .s "40"],
   [.s "4", .s "delta", .s "2020", .s "70"]]⟩

/-- Concrete raw SIDRA population table: codes 1, 4 and 3 in year 2020. -/
def cPop : DF := ⟨["Município (Código)", "Município", "Ano", "V"],
  [[.s "1", .s "alpha", .s "2020", .s "20"],
   [.s "4", .s "delta", .s "2020", .s "10"],
   [.s "3", .s "gamma", .s "2020", .s "30"]]⟩

/-- Concrete raw SIDRA area table: area 10 for code 1, area 0 for code 4. -/
def cArea : DF := ⟨["Município (Código)", "Município", "V"],
  [[.s "1", .s "alpha", .s "10"],
   [.s "4", .s "delta", .s "0"]]⟩

/-- Raw table without a `V` column. -/
def cNoV : DF := ⟨["Ano", "X"], [[.s "2020", .s "10"]]⟩

/-- Raw table whose year cell parses to a non-integral float. -/
def cBadYear : DF := ⟨["Ano", "V"], [[.s "12.5", .s "10"]]⟩

/-- Raw table whose municipality-code cell uses thousands separators. -/
def cDotCode : DF := ⟨["Município (Código)", "Ano", "V"],
  [[.s "1.234.567", .s "2020", .s "10"]]⟩

/-- Raw table whose `V` cells are all non-numeric. -/
def cAllBadV : DF := ⟨["Ano", "V"], [[.s "2020", .s "abc"], [.s "2021", .s "x1"]]⟩

/-- Raw table with unparsable code and year strings (but a good value). -/
def cMessy : DF := ⟨["Município (Código)", "Município", "Ano", "V"],
  [[.s "zz", .s "alpha", .s "??", .s "10"]]⟩

/-- Tidy area table with a duplicated municipality code, the spec's area
aggregation example. -/
def cAreaTidy : DF := ⟨["code_muni", "municipio", "ano", "area"],
  [[.i 10, .s "a", .na, .q 5], [.i 10, .s "b", .na, .q 8], [.i 11, .s "c", .na, .q 3]]⟩

/-- Raw table with an embedded header row: the header filter drops its first
row, so the filtered frame keeps the original labels `[1, 2]` while the
fallback `municipio` series of prep.py line 139 carries a fresh RangeIndex
`[0, 1]`. -/
def cHeaderDrop : DF := ⟨["Município (Código)", "V"],
  [[.s "Cod", .s "Valor"], [.s "1", .s "10"], [.s "2", .s "20"]]⟩

/-- Positions, counted from `n`, of the list entries satisfying `p`: the
labels a pandas boolean row filter keeps out of a default RangeIndex. -/
def idxFilter {α : Type} (p : α → Bool) : Nat → List α → List Nat
  | _, [] => []
  | n, x :: xs => if p x then n :: idxFilter p (n + 1) xs else idxFilter p (n + 1) xs

/-- The pandas index of the frame returned by `_drop_header_like_rows`: raw
SIDRA tables are built with a default RangeIndex (data.py line 32), and
`df.loc[mask].copy()` (prep.py line 49) keeps the selected labels. -/
def survIdx (t : DF) : List Nat :=
  if t.cols.contains "V" then
    idxFilter (fun r => (_coerce_numeric_cell (t.cellOf r "V")).isSome) 0 t.rows
  else List.range t.rows.length

/-- Label alignment of a column assignment `out[c] = series` into a non-empty
frame: pandas reindexes the series to the frame's index, taking the value at
each target label and NA where the label is absent. -/
def alignTo (tgtIdx sIdx : List Nat) (vals : List PVal) : List PVal :=
  tgtIdx.map (fun l =>
    match sIdx.findIdx? (fun j => j = l) with
    | some i => vals.getD i .na
    | none => PVal.na)

/-- The index of the tidy frame `out`: it is set by the first column
assignment (prep.py lines 120-128), so it is the filtered frame's index when
a code column was discovered and the RangeIndex of the line-128 fallback
series otherwise. -/
def outIdxOf (t : DF) : List Nat :=
  match chosenCodeCol (_drop_header_like_rows t) with
  | some _ => survIdx t
  | none => List.range (_drop_header_like_rows t).rows.length

/-- The `municipio` column with pandas label alignment (prep.py lines
130-139): the stringified name column (a series indexed like the filtered
frame) or the RangeIndex `""` fallback series, reindexed to `out`'s index. -/
def munisColIx (t : DF) : List PVal :=
  match muniNameCol (_drop_header_like_rows t) with
  | some c => alignTo (outIdxOf t) (survIdx t)
      (((_drop_header_like_rows t).col c).map (fun v => .s (cellStr v)))
  | none =>
    match terrNameCol (_drop_header_like_rows t) with
    | some c => alignTo (outIdxOf t) (survIdx t)
        (((_drop_header_like_rows t).col c).map (fun v => .s (cellStr v)))
    | none => alignTo (outIdxOf t) (List.range (_drop_header_like_rows t).rows.length)
        (List.replicate (_drop_header_like_rows t).rows.length (PVal.s ""))

/-- The `ano` column with pandas label alignment (prep.py lines 141-145); the
`astype("Int64")` raise happens on the still-unaligned series, before the
assignment realigns it. -/
def anosColIx (t : DF) : Except String (List PVal) :=
  match _extract_time_col (_drop_header_like_rows t) with
  | some c =>
    match toInt64Col ((_drop_header_like_rows t).col c) with
    | .error e => .error e
    | .ok vs => .ok (alignTo (outIdxOf t) (survIdx t) vs)
  | none => .ok (alignTo (outIdxOf t) (List.range (_drop_header_like_rows t).rows.length)
      (List.replicate (_drop_header_like_rows t).rows.length PVal.na))

/-- The value column with pandas label alignment (prep.py line 147). -/
def valsColIx (t : DF) : List PVal :=
  alignTo (outIdxOf t) (survIdx t) (valsCol (_drop_header_like_rows t))

/-- The cells `pd.to_numeric(...).astype("Int64")` is applied to for the
`code_muni` column: the discovered code column's surviving cells, none when no
code column was found (the fallback NA series needs no cast). -/
def codeSrcCells (t : DF) : List PVal :=
  match chosenCodeCol (_drop_header_like_rows t) with
  | some c => (_drop_header_like_rows t).col c
  | none => []

/-- The cells `pd.to_numeric(...).astype("Int64")` is applied to for the `ano`
column: the discovered time column's surviving cells, none when no time column
was found. -/
def timeSrcCells (t : DF) : List PVal :=
  match _extract_time_col (_drop_header_like_rows t) with
  | some c => (_drop_header_like_rows t).col c
  | none => []

/-- `normalize_sidra_table` refined with pandas index alignment: identical to
the model above step for step, except that the frame's index (set by the first
column assignment, prep.py lines 120-128) is tracked and every later column
assignment realigns its series to it, as pandas does. This is the model used
for the error and degradation analysis: the two `astype("Int64")` casts act on
the still-unaligned code/time series, and the final re-casts of lines 163-164
are performed on the assembled columns exactly as in the source. -/
def normalize_sidra_table_ix (df_raw : DF) (value_name : String)
    (keep_extra_dims : Bool := false) : Except String DF :=
  let df := _drop_header_like_rows df_raw
  if df.cols.contains "V" then
    match codesCol df with
    | .error e => .error e
    | .ok codes =>
      let munis : List PVal := munisColIx df_raw
      match anosColIx df_raw with
      | .error e => .error e
      | .ok anos =>
        let vals : List PVal := valsColIx df_raw
        let out0 : DF :=
          ((((DF.mk [] []).assign "code_muni" codes).assign "municipio" munis).assign
            "ano" anos).assign value_name vals
        let out1 : DF :=
          if keep_extra_dims then
            (df.cols.filter isDimCol).foldl
              (fun o c => o.assign c (alignTo (outIdxOf df_raw) (survIdx df_raw) (df.col c)))
              out0
          else out0
        let out2 : DF := ⟨out1.cols, out1.rows.filter (fun r => !pvIsNa (out1.cellOf r value_name))⟩
        match castInt64Col (out2.col "code_muni") with
        | .error e => .error e
        | .ok codes2 =>
          let out3 := out2.assign "code_muni" codes2
          match castInt64Col (out3.col "ano") with
          | .error e => .error e
          | .ok anos2 => .ok (out3.assign "ano" anos2)
  else .error missingVMsg

theorem Heap.get_alloc (h : Heap) (d : DF) (i : Nat) (hi : i < h.objs.length) :
    (h.alloc d).get i = h.get i := by
  simp [Heap.get, Heap.alloc, List.getD, List.getElem?_append, hi]

theorem Heap.get_put_ne (h : Heap) (r : Nat) (d : DF) (i : Nat) (hi : i ≠ r) :
    (h.put r d).get i = h.get i := by
  simp [Heap.get, Heap.put, List.getD, List.getElem?_set_ne (Ne.symm hi)]

theorem Heap.length_alloc (h : Heap) (d : DF) :
    (h.alloc d).objs.length = h.objs.length + 1 := by
  simp [Heap.alloc]

theorem Heap.length_put (h : Heap) (r : Nat) (d : DF) :
    (h.put r d).objs.length = h.objs.length := by
  simp [Heap.put]

theorem Heap.Ext.refl (h : Heap) : Heap.Ext h h :=
  ⟨le_refl _, fun _ _ => rfl⟩

theorem Heap.Ext.alloc_step {h0 h : Heap} (d : DF) (he : Heap.Ext h0 h) :
    Heap.Ext h0 (h.alloc d) := by
  refine ⟨le_trans he.1 (by simp [Heap.length_alloc]), fun i hi => ?_⟩
  rw [Heap.get_alloc h d i (lt_of_lt_of_le hi he.1), he.2 i hi]

theorem Heap.Ext.put_step {h0 h : Heap} {r : Nat} (d : DF)
    (he : Heap.Ext h0 h) (hr : h0.objs.length ≤ r) : Heap.Ext h0 (h.put r d) := by
  refine ⟨le_trans he.1 (by simp [Heap.length_put]), fun i hi => ?_⟩
  rw [Heap.get_put_ne h r d i (by omega), he.2 i hi]

theorem Heap.Ext.foldl_put {h0 : Heap} {r : Nat} (hr : h0.objs.length ≤ r)
    (F : Heap → String → DF) :
    ∀ (cs : List String) (h : Heap), Heap.Ext h0 h →
      Heap.Ext h0 (cs.foldl (fun hh c => hh.put r (F hh c)) h)
  | [], _, he => he
  | c :: cs, h, he =>
    Heap.Ext.foldl_put hr F cs (h.put r (F h c)) (Heap.Ext.put_step _ he hr)

/-- The imperative normalizer only reads its argument and otherwise works on
freshly allocated objects: the final heap extends the initial one, whichever
way the call ends. -/
theorem normalize_sidra_table_imp_ext (h0 : Heap) (rdf_raw : Nat) (value_name : String)
    (keep_extra_dims : Bool) :
    Heap.Ext h0 (normalize_sidra_table_imp h0 rdf_raw value_name keep_extra_dims).1 := by
  unfold normalize_sidra_table_imp
  lift_lets
  extract_lets rdf1 h1 rdf h2 df h3 codesE rout h4 munis anosE
  have e1 : Heap.Ext h0 h1 := Heap.Ext.alloc_step _ (Heap.Ext.refl h0)
  have e2 : Heap.Ext h0 h2 := Heap.Ext.alloc_step _ e1
  have hrdf : h0.objs.length ≤ rdf := e1.1
  have e3 : Heap.Ext h0 h3 := Heap.Ext.put_step _ e2 hrdf
  have e4 : Heap.Ext h0 h4 := Heap.Ext.alloc_step _ e3
  have hrout : h0.objs.length ≤ rout := e3.1
  clear_value codesE munis anosE
  split
  · split
    · exact e4
    · lift_lets
      extract_lets h5 h6
      have e6 : Heap.Ext h0 h6 :=
        Heap.Ext.put_step _ (Heap.Ext.put_step _ e4 hrout) hrout
      split
      · exact e6
      · lift_lets
        extract_lets h7 h8 h9 out1 rout2 h10
        have e8 : Heap.Ext h0 h8 :=
          Heap.Ext.put_step _ (Heap.Ext.put_step _ e6 hrout) hrout
        have e9 : Heap.Ext h0 h9 := by
          unfold h9
          split
          · exact Heap.Ext.foldl_put hrout _ _ _ e8
          · exact e8
        have e10 : Heap.Ext h0 h10 := Heap.Ext.alloc_step _ e9
        have hrout2 : h0.objs.length ≤ rout2 := e9.1
        split
        · exact e10
        · lift_lets
          extract_lets h11
          have e11 : Heap.Ext h0 h11 := Heap.Ext.put_step _ e10 hrout2
          split
          · exact e11
          · exact Heap.Ext.put_step _ e11 hrout2
  · exact e2

theorem Heap.Ext.trans {a b c : Heap} (h1 : Heap.Ext a b) (h2 : Heap.Ext b c) :
    Heap.Ext a c :=
  ⟨le_trans h1.1 h2.1, fun i hi => (h2.2 i (lt_of_lt_of_le hi h1.1)).trans (h1.2 i hi)⟩

theorem munStage_ext (h0 : Heap) (rmun : Nat) : Heap.Ext h0 (munStage h0 rmun).1 := by
  delta munStage
  lift_lets
  extract_lets rmun1 h1 renamed rmun2 h2 mun
  have e1 : Heap.Ext h0 h1 := Heap.Ext.alloc_step _ (Heap.Ext.refl h0)
  have e2 : Heap.Ext h0 h2 := by
    unfold h2
    split
    · exact Heap.Ext.alloc_step _ e1
    · exact e1
  have hrmun2 : h0.objs.length ≤ rmun2 := by
    unfold rmun2
    split
    · exact e1.1
    · exact le_refl _
  split
  · split
    · exact e2
    · exact Heap.Ext.put_step _ e2 hrmun2
  · exact e2

theorem norm3_ext (h : Heap) (rpib rpop rarea : Nat) : Heap.Ext h (norm3 h rpib rpop rarea).1 := by
  delta norm3
  split
  case _ hA e heq =>
    have := normalize_sidra_table_imp_ext h rpib "pib" false
    rw [heq] at this
    exact this
  case _ hA a heq =>
    have eA : Heap.Ext h hA := by
      have := normalize_sidra_table_imp_ext h rpib "pib" false
      rw [heq] at this
      exact this
    split
    case _ hB e heq2 =>
      have := normalize_sidra_table_imp_ext hA rpop "pop" false
      rw [heq2] at this
      exact eA.trans this
    case _ hB b heq2 =>
      have eB : Heap.Ext h hB := by
        have := normalize_sidra_table_imp_ext hA rpop "pop" false
        rw [heq2] at this
        exact eA.trans this
      split
      case _ hC e heq3 =>
        have := normalize_sidra_table_imp_ext hB rarea "area" false
        rw [heq3] at this
        exact eB.trans this
      case _ hC c heq3 =>
        have := normalize_sidra_table_imp_ext hB rarea "area" false
        rw [heq3] at this
        exact eB.trans this

theorem panelStage_ext (h : Heap) (rmun2 rpibT rpopT rareaT : Nat) :
    Heap.Ext h (panelStage h rmun2 rpibT rpopT rareaT).1 := by
  delta panelStage
  lift_lets
  extract_lets ragg h7 rp1 h8 munF
  have e8 : Heap.Ext h h8 :=
    Heap.Ext.alloc_step _ (Heap.Ext.alloc_step _ (Heap.Ext.refl h))
  split
  · lift_lets
    extract_lets rp2 h9 rp3 h10 p3 h11 p4 h12 p5 rp4 h13
    have e9 : Heap.Ext h h9 := Heap.Ext.alloc_step _ e8
    have hrp3 : h.objs.length ≤ rp3 := e9.1
    exact Heap.Ext.alloc_step _
      (Heap.Ext.put_step _ (Heap.Ext.put_step _ (Heap.Ext.alloc_step _ e9) hrp3) hrp3)
  · exact e8

/-- The imperative panel builder only reads its four argument references:
its final heap extends the initial one, whichever way the call ends. -/
theorem build_panel_imp_ext (h0 : Heap) (rmun rpib rpop rarea : Nat) :
    Heap.Ext h0 (build_panel_imp h0 rmun rpib rpop rarea).1 := by
  delta build_panel_imp
  split
  case _ hA e heq =>
    have := munStage_ext h0 rmun
    rw [heq] at this
    exact this
  case _ hA rmun2 heq =>
    have eA : Heap.Ext h0 hA := by
      have := munStage_ext h0 rmun
      rw [heq] at this
      exact this
    split
    case _ hB e heq2 =>
      have := norm3_ext hA rpib rpop rarea
      rw [heq2] at this
      exact eA.trans this
    case _ hB rT heq2 =>
      have eB : Heap.Ext h0 hB := by
        have := norm3_ext hA rpib rpop rarea
        rw [heq2] at this
        exact eA.trans this
      exact eB.trans (panelStage_ext hB rmun2 rT.1 rT.2.1 rT.2.2)

theorem pvIsNa_iff (v : PVal) : pvIsNa v = true ↔ v = .na := by
  cases v <;> simp [pvIsNa]

theorem not_pvIsNa_iff (v : PVal) : (!pvIsNa v) = true ↔ v ≠ .na := by
  cases v <;> simp [pvIsNa]

theorem getD_mem_or_default {α : Type} (l : List α) (i : Nat) (d : α) :
    l.getD i d ∈ l ∨ l.getD i d = d := by
  by_cases h : i < l.length
  · left
    rw [List.getD_eq_getElem l d h]
    exact List.getElem_mem h
  · right
    simp [List.getD, List.getElem?_eq_none (by omega : l.length ≤ i)]

theorem set_getD_self {α : Type} (l : List α) (i : Nat) (d : α) (h : i < l.length) :
    l.set i (l.getD i d) = l := by
  induction l generalizing i with
  | nil => simp at h
  | cons a t ih =>
    cases i with
    | zero => rfl
    | succ j => simp only [List.getD_cons_succ, List.set_cons_succ, List.cons.injEq,
        true_and]; exact ih j (by simpa using h)

theorem zipWith_self_eq_map {α β : Type} (f : α → α → β) (l : List α) :
    List.zipWith f l l = l.map (fun a => f a a) := by
  induction l with
  | nil => rfl
  | cons a t ih => simp [ih]

theorem castInt64Col_ok_of (l : List PVal) (h : ∀ v ∈ l, intSafeB v = true) :
    ∃ ws, castInt64Col l = .ok ws := by
  induction l with
  | nil => exact ⟨[], rfl⟩
  | cons v t ih =>
    obtain ⟨ws, hws⟩ := ih (fun x hx => h x (List.mem_cons_of_mem _ hx))
    have hv := h v (List.mem_cons_self v t)
    cases v with
    | q x =>
      simp [intSafeB] at hv
      exact ⟨.i x.num :: ws, by simp [castInt64Col, castInt64Cell, hv, hws]⟩
    | i n => exact ⟨.i n :: ws, by simp [castInt64Col, castInt64Cell, hws]⟩
    | na => exact ⟨.na :: ws, by simp [castInt64Col, castInt64Cell, hws]⟩
    | s v => simp [intSafeB] at hv
    | inf => simp [intSafeB] at hv
    | ninf => simp [intSafeB] at hv

theorem castInt64Col_ok_length (l ws : List PVal) (h : castInt64Col l = .ok ws) :
    ws.length = l.length := by
  induction l generalizing ws with
  | nil => cases h; rfl
  | cons v t ih =>
    rw [castInt64Col] at h
    cases hc : castInt64Cell v with
    | error e => simp [hc] at h
    | ok w =>
      cases ht : castInt64Col t with
      | error e => simp [hc, ht] at h
      | ok ws' =>
        simp [hc, ht] at h
        subst h
        simp [ih ws' ht]

theorem castInt64Col_ok_cells (l ws : List PVal) (h : castInt64Col l = .ok ws) :
    ∀ w ∈ ws, w = .na ∨ ∃ n, w = .i n := by
  induction l generalizing ws with
  | nil => cases h; simp
  | cons v t ih =>
    rw [castInt64Col] at h
    cases hc : castInt64Cell v with
    | error e => simp [hc] at h
    | ok w =>
      cases ht : castInt64Col t with
      | error e => simp [hc, ht] at h
      | ok ws' =>
        simp [hc, ht] at h
        subst h
        intro x hx
        rcases List.mem_cons.mp hx with hx | hx
        · subst hx
          cases v with
          | q y =>
            by_cases hd : y.den = 1 <;> simp [castInt64Cell, hd] at hc
            · right; exact ⟨y.num, hc.symm⟩
          | i n => simp [castInt64Cell] at hc; right; exact ⟨n, hc.symm⟩
          | na => simp [castInt64Cell] at hc; left; exact hc.symm
          | s v => simp [castInt64Cell] at hc
          | inf => simp [castInt64Cell] at hc
          | ninf => simp [castInt64Cell] at hc
        · exact ih ws' ht x hx

theorem castInt64Col_id (l : List PVal) (h : ∀ v ∈ l, v = .na ∨ ∃ n, v = .i n) :
    castInt64Col l = .ok l := by
  induction l with
  | nil => rfl
  | cons v t ih =>
    have ht := ih (fun x hx => h x (List.mem_cons_of_mem _ hx))
    rcases h v (List.mem_cons_self v t) with hv | ⟨n, hv⟩ <;> subst hv <;>
      simp [castInt64Col, castInt64Cell, ht]

theorem length_mkRows4 (cs ms as vs : List PVal) (h1 : ms.length = cs.length)
    (h2 : as.length = cs.length) (h3 : vs.length = cs.length) :
    (mkRows4 cs ms as vs).length = cs.length := by
  simp [mkRows4, h1, h2, h3]

theorem mem_mkRows4 (cs ms as vs : List PVal) (h1 : ms.length = cs.length)
    (h2 : as.length = cs.length) (h3 : vs.length = cs.length) (r : List PVal) :
    r ∈ mkRows4 cs ms as vs ↔
      ∃ i, i < cs.length ∧
        r = [cs.getD i .na, ms.getD i .na, as.getD i .na, vs.getD i .na] := by
  have hlen := length_mkRows4 cs ms as vs h1 h2 h3
  constructor
  · intro hr
    obtain ⟨i, hi, hEq⟩ := List.mem_iff_getElem.mp hr
    have hic : i < cs.length := hlen ▸ hi
    have him : i < ms.length := by omega
    have hia : i < as.length := by omega
    have hiv : i < vs.length := by omega
    refine ⟨i, hic, ?_⟩
    rw [← hEq]
    simp [mkRows4, List.getElem_zipWith, List.getElem_map, List.getD,
      List.getElem?_eq_getElem hic, List.getElem?_eq_getElem him,
      List.getElem?_eq_getElem hia, List.getElem?_eq_getElem hiv]
  · rintro ⟨i, hic, rfl⟩
    have him : i < ms.length := by omega
    have hia : i < as.length := by omega
    have hiv : i < vs.length := by omega
    refine List.mem_iff_getElem.mpr ⟨i, hlen ▸ hic, ?_⟩
    simp [mkRows4, List.getElem_zipWith, List.getElem_map, List.getD,
      List.getElem?_eq_getElem hic, List.getElem?_eq_getElem him,
      List.getElem?_eq_getElem hia, List.getElem?_eq_getElem hiv]

theorem assign_chain (cs ms as vs : List PVal) (vn : String)
    (hv1 : vn ≠ "code_muni") (hv2 : vn ≠ "municipio") (hv3 : vn ≠ "ano") :
    ((((DF.mk [] []).assign "code_muni" cs).assign "municipio" ms).assign "ano" as).assign vn vs
      = ⟨["code_muni", "municipio", "ano", vn], mkRows4 cs ms as vs⟩ := by
  have e1 : (DF.mk [] []).assign "code_muni" cs = ⟨["code_muni"], cs.map (fun v => [v])⟩ := by
    simp [DF.assign]
  rw [e1]
  have e2 : (DF.mk ["code_muni"] (cs.map (fun v => [v]))).assign "municipio" ms
      = ⟨["code_muni", "municipio"], List.zipWith (fun r v => r ++ [v]) (cs.map (fun v => [v])) ms⟩ := by
    simp [DF.assign, List.findIdx?]
  rw [e2]
  have e3 : (DF.mk ["code_muni", "municipio"]
        (List.zipWith (fun r v => r ++ [v]) (cs.map (fun v => [v])) ms)).assign "ano" as
      = ⟨["code_muni", "municipio", "ano"],
        List.zipWith (fun r v => r ++ [v]) (List.zipWith (fun r v => r ++ [v]) (cs.map (fun v => [v])) ms) as⟩ := by
    simp [DF.assign, List.findIdx?]
  rw [e3]
  simp [DF.assign, List.findIdx?, Ne.symm hv1, Ne.symm hv2, Ne.symm hv3, mkRows4]

theorem DF.col_length (df : DF) (c : String) : (df.col c).length = df.rows.length := by
  simp [DF.col]

theorem toInt64Col_ok_length (l ws : List PVal) (h : toInt64Col l = .ok ws) :
    ws.length = l.length := by
  rw [toInt64Col] at h
  simpa using castInt64Col_ok_length _ _ h

theorem toInt64Col_ok_cells (l ws : List PVal) (h : toInt64Col l = .ok ws) :
    ∀ w ∈ ws, w = .na ∨ ∃ n, w = .i n :=
  castInt64Col_ok_cells _ _ h

theorem codesCol_ok_length (df : DF) (cs : List PVal) (h : codesCol df = .ok cs) :
    cs.length = df.rows.length := by
  rw [codesCol] at h
  cases hc : chosenCodeCol df with
  | some c =>
    rw [hc] at h
    rw [toInt64Col_ok_length _ _ h, DF.col_length]
  | none =>
    rw [hc] at h
    cases h
    simp

theorem codesCol_ok_cells (df : DF) (cs : List PVal) (h : codesCol df = .ok cs) :
    ∀ v ∈ cs, v = .na ∨ ∃ n, v = .i n := by
  rw [codesCol] at h
  cases hc : chosenCodeCol df with
  | some c =>
    rw [hc] at h
    exact toInt64Col_ok_cells _ _ h
  | none =>
    rw [hc] at h
    cases h
    intro v hv
    left
    exact (List.eq_of_mem_replicate hv)

theorem anosCol_ok_length (df : DF) (as : List PVal) (h : anosCol df = .ok as) :
    as.length = df.rows.length := by
  rw [anosCol] at h
  cases hc : _extract_time_col df with
  | some c =>
    rw [hc] at h
    rw [toInt64Col_ok_length _ _ h, DF.col_length]
  | none =>
    rw [hc] at h
    cases h
    simp

theorem anosCol_ok_cells (df : DF) (as : List PVal) (h : anosCol df = .ok as) :
    ∀ v ∈ as, v = .na ∨ ∃ n, v = .i n := by
  rw [anosCol] at h
  cases hc : _extract_time_col df with
  | some c =>
    rw [hc] at h
    exact toInt64Col_ok_cells _ _ h
  | none =>
    rw [hc] at h
    cases h
    intro v hv
    left
    exact (List.eq_of_mem_replicate hv)

theorem munisCol_length (df : DF) : (munisCol df).length = df.rows.length := by
  rw [munisCol]
  cases muniNameCol df with
  | some c => simp [DF.col]
  | none =>
    cases terrNameCol df with
    | some c => simp [DF.col]
    | none => simp

theorem valsCol_length (df : DF) : (valsCol df).length = df.rows.length := by
  simp [valsCol, _coerce_numeric, DF.col]

theorem DF.assign_col_self (df : DF) (c : String) (i : Nat)
    (hne : ¬ df.cols.isEmpty) (hidx : df.cols.findIdx? (fun x => x = c) = some i)
    (hwf : ∀ r ∈ df.rows, i < r.length) : df.assign c (df.col c) = df := by
  rw [DF.assign, if_neg hne, hidx]
  have hcell : ∀ r, DF.cellOf df r c = r.getD i .na := by
    intro r
    rw [DF.cellOf, DF.colIdx, hidx]
  have : List.zipWith (fun r v => r.set i v) df.rows (df.col c) = df.rows := by
    rw [DF.col, List.zipWith_map_right, zipWith_self_eq_map]
    rw [List.map_congr_left (fun r hr => by rw [hcell r, set_getD_self r i .na (hwf r hr)])]
    exact List.map_id _
  dsimp only
  rw [this]

theorem colIdx_quad0 (vn : String) :
    List.findIdx? (fun x => x = "code_muni") ["code_muni", "municipio", "ano", vn] = some 0 := by
  simp [List.findIdx?_cons]

theorem colIdx_quad2 (vn : String) :
    List.findIdx? (fun x => x = "ano") ["code_muni", "municipio", "ano", vn] = some 2 := by
  simp [List.findIdx?_cons]

theorem colIdx_quad3 (vn : String) (hv1 : vn ≠ "code_muni") (hv2 : vn ≠ "municipio")
    (hv3 : vn ≠ "ano") :
    List.findIdx? (fun x => x = vn) ["code_muni", "municipio", "ano", vn] = some 3 := by
  simp [List.findIdx?_cons, Ne.symm hv1, Ne.symm hv2, Ne.symm hv3]

theorem mem_filter_mkRows4_shape (cs ms as vs : List PVal)
    (h1 : ms.length = cs.length) (h2 : as.length = cs.length) (h3 : vs.length = cs.length)
    (p : List PVal → Bool) (r : List PVal)
    (hr : r ∈ (mkRows4 cs ms as vs).filter p) :
    ∃ i, i < cs.length ∧
      r = [cs.getD i .na, ms.getD i .na, as.getD i .na, vs.getD i .na] :=
  (mem_mkRows4 cs ms as vs h1 h2 h3 r).mp (List.mem_of_mem_filter hr)

/-- When the raw table (after the header filter) has a `V` column and both
nullable-integer casts succeed, `normalize_sidra_table` returns the canonical
four-column tidy table: the assembled rows, filtered to those with a
non-missing value. -/
theorem normalize_eq_of_ok_cols (t : DF) (vn : String)
    (hv1 : vn ≠ "code_muni") (hv2 : vn ≠ "municipio") (hv3 : vn ≠ "ano")
    (codes anos : List PVal)
    (hV : (_drop_header_like_rows t).cols.contains "V" = true)
    (hcs : codesCol (_drop_header_like_rows t) = .ok codes)
    (has : anosCol (_drop_header_like_rows t) = .ok anos) :
    normalize_sidra_table t vn false =
      .ok ⟨["code_muni", "municipio", "ano", vn],
        (mkRows4 codes (munisCol (_drop_header_like_rows t)) anos
          (valsCol (_drop_header_like_rows t))).filter (fun r => !pvIsNa (r.getD 3 .na))⟩ := by
  have hlm : (munisCol (_drop_header_like_rows t)).length = codes.length := by
    rw [munisCol_length, codesCol_ok_length _ _ hcs]
  have hla : anos.length = codes.length := by
    rw [anosCol_ok_length _ _ has, codesCol_ok_length _ _ hcs]
  have hlv : (valsCol (_drop_header_like_rows t)).length = codes.length := by
    rw [valsCol_length, codesCol_ok_length _ _ hcs]
  rw [normalize_sidra_table]
  dsimp only
  rw [if_pos hV, hcs, has]
  dsimp only
  simp only [Bool.false_eq_true, if_false]
  rw [assign_chain _ _ _ _ vn hv1 hv2 hv3]
  have hcell3 : ∀ r : List PVal,
      DF.cellOf ⟨["code_muni", "municipio", "ano", vn], mkRows4 codes
        (munisCol (_drop_header_like_rows t)) anos (valsCol (_drop_header_like_rows t))⟩ r vn
      = r.getD 3 .na := by
    intro r
    rw [DF.cellOf, DF.colIdx]
    dsimp only
    rw [colIdx_quad3 vn hv1 hv2 hv3]
  simp only [hcell3]
  set df := _drop_header_like_rows t with hdf
  set rows2 := (mkRows4 codes (munisCol df) anos (valsCol df)).filter
    (fun r => !pvIsNa (r.getD 3 .na)) with hrows2
  have hshape : ∀ r ∈ rows2, ∃ i, i < codes.length ∧
      r = [codes.getD i .na, (munisCol df).getD i .na, anos.getD i .na, (valsCol df).getD i .na] := by
    intro r hr
    exact mem_filter_mkRows4_shape _ _ _ _ hlm hla hlv _ r hr
  have hcol0 : DF.col ⟨["code_muni", "municipio", "ano", vn], rows2⟩ "code_muni"
      = rows2.map (fun r => r.getD 0 .na) := by
    rw [DF.col]
    refine List.map_congr_left (fun r _ => ?_)
    rw [DF.cellOf, DF.colIdx]
    dsimp only
    rw [colIdx_quad0 vn]
  have hcast0 : castInt64Col (rows2.map (fun r => r.getD 0 .na)) =
      .ok (rows2.map (fun r => r.getD 0 .na)) := by
    refine castInt64Col_id _ (fun v hv => ?_)
    obtain ⟨r, hr, rfl⟩ := List.mem_map.mp hv
    obtain ⟨i, hi, rfl⟩ := hshape r hr
    simp only [List.getD_cons_zero]
    rcases getD_mem_or_default codes i PVal.na with hm | hm
    · exact codesCol_ok_cells _ _ hcs _ hm
    · left; exact hm
  have hwf2 : ∀ r ∈ rows2, 0 < r.length := by
    intro r hr
    obtain ⟨i, _, rfl⟩ := hshape r hr
    simp
  have hself0 : (DF.mk ["code_muni", "municipio", "ano", vn] rows2).assign "code_muni"
      (DF.col ⟨["code_muni", "municipio", "ano", vn], rows2⟩ "code_muni")
      = ⟨["code_muni", "municipio", "ano", vn], rows2⟩ := by
    exact DF.assign_col_self _ _ 0 (by simp) (colIdx_quad0 vn) hwf2
  rw [hcol0, hcast0]
  dsimp only
  rw [← hcol0, hself0]
  have hcol2 : DF.col ⟨["code_muni", "municipio", "ano", vn], rows2⟩ "ano"
      = rows2.map (fun r => r.getD 2 .na) := by
    rw [DF.col]
    refine List.map_congr_left (fun r _ => ?_)
    rw [DF.cellOf, DF.colIdx]
    dsimp only
    rw [colIdx_quad2 vn]
  have hcast2 : castInt64Col (rows2.map (fun r => r.getD 2 .na)) =
      .ok (rows2.map (fun r => r.getD 2 .na)) := by
    refine castInt64Col_id _ (fun v hv => ?_)
    obtain ⟨r, hr, rfl⟩ := List.mem_map.mp hv
    obtain ⟨i, hi, rfl⟩ := hshape r hr
    simp only [List.getD_cons_succ, List.getD_cons_zero]
    rcases getD_mem_or_default anos i PVal.na with hm | hm
    · exact anosCol_ok_cells _ _ has _ hm
    · left; exact hm
  have hwf2' : ∀ r ∈ rows2, 2 < r.length := by
    intro r hr
    obtain ⟨i, _, rfl⟩ := hshape r hr
    simp
  have hself2 : (DF.mk ["code_muni", "municipio", "ano", vn] rows2).assign "ano"
      (DF.col ⟨["code_muni", "municipio", "ano", vn], rows2⟩ "ano")
      = ⟨["code_muni", "municipio", "ano", vn], rows2⟩ := by
    exact DF.assign_col_self _ _ 2 (by simp) (colIdx_quad2 vn) hwf2'
  rw [hcol2, hcast2]
  dsimp only
  rw [← hcol2, hself2]

theorem drop_header_cols (t : DF) : (_drop_header_like_rows t).cols = t.cols := by
  rw [_drop_header_like_rows]
  split <;> rfl

theorem normalize_noV (t : DF) (vn : String) (k : Bool)
    (h : (_drop_header_like_rows t).cols.contains "V" = false) :
    normalize_sidra_table t vn k = .error missingVMsg := by
  rw [normalize_sidra_table]
  dsimp only
  rw [if_neg (by rw [h]; exact Bool.false_ne_true)]

theorem normalize_codes_error (t : DF) (vn : String) (k : Bool) (e : String)
    (hV : (_drop_header_like_rows t).cols.contains "V" = true)
    (hcs : codesCol (_drop_header_like_rows t) = .error e) :
    normalize_sidra_table t vn k = .error e := by
  rw [normalize_sidra_table]
  dsimp only
  rw [if_pos hV, hcs]

theorem normalize_anos_error (t : DF) (vn : String) (k : Bool) (codes : List PVal) (e : String)
    (hV : (_drop_header_like_rows t).cols.contains "V" = true)
    (hcs : codesCol (_drop_header_like_rows t) = .ok codes)
    (has : anosCol (_drop_header_like_rows t) = .error e) :
    normalize_sidra_table t vn k = .error e := by
  rw [normalize_sidra_table]
  dsimp only
  rw [if_pos hV, hcs, has]

/-- Success-path inversion for `normalize_sidra_table` with the default
`keep_extra_dims`: a returned tidy table has the canonical four columns and
its rows are the assembled, value-filtered rows. -/
theorem normalize_ok_shape (t : DF) (vn : String) (out : DF)
    (hv1 : vn ≠ "code_muni") (hv2 : vn ≠ "municipio") (hv3 : vn ≠ "ano")
    (hok : normalize_sidra_table t vn false = .ok out) :
    (_drop_header_like_rows t).cols.contains "V" = true ∧
    ∃ codes anos,
      codesCol (_drop_header_like_rows t) = .ok codes ∧
      anosCol (_drop_header_like_rows t) = .ok anos ∧
      out = ⟨["code_muni", "municipio", "ano", vn],
        (mkRows4 codes (munisCol (_drop_header_like_rows t)) anos
          (valsCol (_drop_header_like_rows t))).filter (fun r => !pvIsNa (r.getD 3 .na))⟩ := by
  cases hV : (_drop_header_like_rows t).cols.contains "V" with
  | false => rw [normalize_noV t vn false hV] at hok; cases hok
  | true =>
    refine ⟨rfl, ?_⟩
    cases hcs : codesCol (_drop_header_like_rows t) with
    | error e => rw [normalize_codes_error t vn false e hV hcs] at hok; cases hok
    | ok codes =>
      cases has : anosCol (_drop_header_like_rows t) with
      | error e => rw [normalize_anos_error t vn false codes e hV hcs has] at hok; cases hok
      | ok anos =>
        refine ⟨codes, anos, rfl, rfl, ?_⟩
        rw [normalize_eq_of_ok_cols t vn hv1 hv2 hv3 codes anos hV hcs has] at hok
        cases hok
        rfl

theorem DF.dropna_cols (df : DF) (cs : List String) : (df.dropna cs).cols = df.cols := rfl

theorem areaAgg_cols (a : DF) : (areaAgg a).cols = ["code_muni", "area"] := rfl

theorem sortPanel_cols (p : DF) : (sortPanel p).cols = p.cols := rfl

theorem DF.select_cols (df : DF) (cs : List String) : (df.select cs).cols = cs := rfl

theorem DF.merge_cols (l r : DF) (ks : List String) (lj : Bool) (sl sr : String) :
    (DF.merge l r ks lj sl sr).cols =
      (l.cols.map (fun c =>
        if (l.cols.filter (fun c' => r.cols.contains c' && !ks.contains c')).contains c
        then c ++ sl else c)) ++
      ((r.cols.filter (fun c => !ks.contains c)).map (fun c =>
        if (l.cols.filter (fun c' => r.cols.contains c' && !ks.contains c')).contains c
        then c ++ sr else c)) := rfl

theorem DF.assign_cols (df : DF) (c : String) (vals : List PVal) :
    (df.assign c vals).cols =
      if df.cols.isEmpty then [c]
      else
        match df.cols.findIdx? (fun x => x = c) with
        | some _ => df.cols
        | none => df.cols ++ [c] := by
  rw [DF.assign]
  split
  · simp_all
  · split <;> simp_all

theorem build_panel_presort_ok_inv (mun pib pop area q : DF)
    (hok : build_panel_presort mun pib pop area = .ok q) :
    ∃ m pibT popT areaT,
      munPrep mun = .ok m ∧
      normalize_sidra_table pib "pib" false = .ok pibT ∧
      normalize_sidra_table pop "pop" false = .ok popT ∧
      normalize_sidra_table area "area" false = .ok areaT ∧
      m.cols.contains "municipio" = true ∧
      q = panelParts m pibT popT areaT := by
  rw [build_panel_presort] at hok
  cases hm : munPrep mun with
  | error e => rw [hm] at hok; simp [bind, Except.bind] at hok
  | ok m =>
    rw [hm] at hok
    simp only [bind, Except.bind] at hok
    cases hp : normalize_sidra_table pib "pib" false with
    | error e => rw [hp] at hok; simp [bind, Except.bind] at hok
    | ok pibT =>
      rw [hp] at hok
      simp only [bind, Except.bind] at hok
      cases hq : normalize_sidra_table pop "pop" false with
      | error e => rw [hq] at hok; simp [bind, Except.bind] at hok
      | ok popT =>
        rw [hq] at hok
        simp only [bind, Except.bind] at hok
        cases ha : normalize_sidra_table area "area" false with
        | error e => rw [ha] at hok; simp [bind, Except.bind] at hok
        | ok areaT =>
          rw [ha] at hok
          simp only [bind, Except.bind] at hok
          cases hmm : m.cols.contains "municipio" with
          | false => rw [hmm] at hok; simp at hok
          | true =>
            rw [hmm] at hok
            simp only [if_true, pure, Except.pure] at hok
            cases hok
            exact ⟨m, pibT, popT, areaT, rfl, rfl, rfl, rfl, hmm, rfl⟩

theorem build_panel_ok_inv (mun pib pop area p : DF)
    (hok : build_panel mun pib pop area = .ok p) :
    ∃ q, build_panel_presort mun pib pop area = .ok q ∧ p = sortPanel q := by
  rw [build_panel] at hok
  cases hq : build_panel_presort mun pib pop area with
  | error e => rw [hq] at hok; simp [bind, Except.bind] at hok
  | ok q =>
    rw [hq] at hok
    simp only [bind, Except.bind, pure, Except.pure] at hok
    cases hok
    exact ⟨q, rfl, rfl⟩

theorem getD_append_left {α : Type} (l l' : List α) (i : Nat) (d : α) (h : i < l.length) :
    (l ++ l').getD i d = l.getD i d := by
  simp [List.getD, List.getElem?_append, h]

theorem getD_append_right {α : Type} (l l' : List α) (j : Nat) (d : α) :
    (l ++ l').getD (l.length + j) d = l'.getD j d := by
  simp [List.getD, List.getElem?_append_right (Nat.le_add_right _ _)]

/-- The key-match predicate of a pandas merge, as a proposition. -/
def keyMatch (l r : DF) (ks : List String) (lr rr : List PVal) : Prop :=
  ∀ k ∈ ks, l.cellOf lr k = r.cellOf rr k

/-- The non-key right-hand columns carried by a merge. -/
def rKeepCols (r : DF) (ks : List String) : List String :=
  r.cols.filter (fun c => !ks.contains c)

theorem keyMatch_decide (l r : DF) (ks : List String) (lr rr : List PVal) :
    (ks.all fun k => l.cellOf lr k = r.cellOf rr k) = true ↔ keyMatch l r ks lr rr := by
  simp [keyMatch, List.all_eq_true]

/-- Membership in the rows of a modelled merge: every output row is a left row
extended either with the non-key cells of a key-matching right row, or (on a
left join with no match) with NA padding. -/
theorem DF.mem_merge_rows (l r : DF) (ks : List String) (lj : Bool) (sl sr : String)
    (row : List PVal) :
    row ∈ (DF.merge l r ks lj sl sr).rows ↔
      ∃ lr, lr ∈ l.rows ∧
        ((∃ rr, rr ∈ r.rows ∧ keyMatch l r ks lr rr ∧
            row = lr ++ (rKeepCols r ks).map (fun c => r.cellOf rr c)) ∨
         (lj = true ∧ (∀ rr ∈ r.rows, ¬ keyMatch l r ks lr rr) ∧
            row = lr ++ (rKeepCols r ks).map (fun _ => PVal.na))) := by
  rw [DF.merge]
  dsimp only
  rw [List.mem_flatMap]
  refine exists_congr (fun lr => ?_)
  refine and_congr_right (fun _ => ?_)
  by_cases hms : (r.rows.filter fun rr => ks.all fun k => l.cellOf lr k = r.cellOf rr k).isEmpty
  · rw [if_pos hms]
    rw [List.isEmpty_iff] at hms
    have hnone : ∀ rr ∈ r.rows, ¬ keyMatch l r ks lr rr := by
      intro rr hrr hall
      have hmem : rr ∈ r.rows.filter fun rr => ks.all fun k => l.cellOf lr k = r.cellOf rr k := by
        rw [List.mem_filter]
        exact ⟨hrr, (keyMatch_decide l r ks lr rr).mpr hall⟩
      rw [hms] at hmem
      cases hmem
    constructor
    · intro hrow
      cases lj with
      | false => cases hrow
      | true =>
        simp only [if_true, List.mem_singleton] at hrow
        exact Or.inr ⟨rfl, hnone, by simpa [rKeepCols] using hrow⟩
    · rintro (⟨rr, hrr, hkm, _⟩ | ⟨hlj, _, hrow⟩)
      · exact absurd hkm (hnone rr hrr)
      · subst hlj
        simp only [if_true, List.mem_singleton]
        simpa [rKeepCols] using hrow
  · rw [if_neg hms]
    constructor
    · intro hrow
      obtain ⟨rr, hrr, hrow⟩ := List.mem_map.mp hrow
      rw [List.mem_filter] at hrr
      exact Or.inl ⟨rr, hrr.1, (keyMatch_decide l r ks lr rr).mp hrr.2, hrow.symm⟩
    · rintro (⟨rr, hrr, hkm, hrow⟩ | ⟨_, hnone, _⟩)
      · refine List.mem_map.mpr ⟨rr, ?_, hrow.symm⟩
        rw [List.mem_filter]
        exact ⟨hrr, (keyMatch_decide l r ks lr rr).mpr hkm⟩
      · exfalso
        rw [List.isEmpty_iff] at hms
        rcases hfe : r.rows.filter (fun rr => ks.all fun k => l.cellOf lr k = r.cellOf rr k) with _ | ⟨rr, rest⟩
        · exact hms hfe
        · have hmem : rr ∈ r.rows.filter fun rr => ks.all fun k => l.cellOf lr k = r.cellOf rr k := by
            rw [hfe]; exact List.mem_cons_self ..
          rw [List.mem_filter] at hmem
          exact hnone rr hmem.1 ((keyMatch_decide l r ks lr rr).mp hmem.2)

/-- A left join keeps every left row: each left row occurs extended in the
output. -/
theorem DF.merge_left_total (l r : DF) (ks : List String) (sl sr : String)
    (lr : List PVal) (hlr : lr ∈ l.rows) :
    ∃ ext, ext.length = (rKeepCols r ks).length ∧
      lr ++ ext ∈ (DF.merge l r ks true sl sr).rows := by
  by_cases h : ∃ rr ∈ r.rows, keyMatch l r ks lr rr
  · obtain ⟨rr, hrr, hkm⟩ := h
    exact ⟨(rKeepCols r ks).map (fun c => r.cellOf rr c), by simp,
      (DF.mem_merge_rows l r ks true sl sr _).mpr ⟨lr, hlr, Or.inl ⟨rr, hrr, hkm, rfl⟩⟩⟩
  · push_neg at h
    exact ⟨(rKeepCols r ks).map (fun _ => PVal.na), by simp,
      (DF.mem_merge_rows l r ks true sl sr _).mpr ⟨lr, hlr, Or.inr ⟨rfl, h, rfl⟩⟩⟩

theorem mem_insertBy {α : Type} (lt : α → α → Bool) (a x : α)
    (s : List α) : x ∈ insertBy lt a s ↔ x = a ∨ x ∈ s := by
  induction s with
  | nil => simp [insertBy]
  | cons b t ih =>
    rw [insertBy]
    split
    · simp only [List.mem_cons, ih]
      tauto
    · simp only [List.mem_cons]

theorem insertBy_perm {α : Type} (lt : α → α → Bool) (a : α)
    (s : List α) : List.Perm (insertBy lt a s) (a :: s) := by
  induction s with
  | nil => rfl
  | cons b t ih =>
    rw [insertBy]
    split
    · exact (ih.cons b).trans (List.Perm.swap a b t)
    · rfl

theorem isortBy_perm {α : Type} (lt : α → α → Bool) (l : List α) :
    List.Perm (isortBy lt l) l := by
  induction l with
  | nil => rfl
  | cons a t ih => exact (insertBy_perm lt a (isortBy lt t)).trans (ih.cons a)

theorem mem_isortBy {α : Type} (lt : α → α → Bool) (l : List α) (x : α) :
    x ∈ isortBy lt l ↔ x ∈ l :=
  (isortBy_perm lt l).mem_iff

theorem pairwise_insertBy {α : Type} (lt : α → α → Bool)
    (hasym : ∀ x y, lt x y = true → lt y x = false)
    (hneg : ∀ x y z, lt y x = false → lt z y = false → lt z x = false)
    (a : α) (s : List α)
    (hs : s.Pairwise (fun x y => lt y x = false)) :
    (insertBy lt a s).Pairwise (fun x y => lt y x = false) := by
  induction s with
  | nil => simp [insertBy]
  | cons b t ih =>
    rw [List.pairwise_cons] at hs
    obtain ⟨hb, ht⟩ := hs
    rw [insertBy]
    split
    case isTrue h =>
      rw [List.pairwise_cons]
      refine ⟨fun x hx => ?_, ih ht⟩
      rcases (mem_insertBy lt a x t).mp hx with rfl | hx
      · exact hasym _ _ h
      · exact hb x hx
    case isFalse h =>
      have h' : lt b a = false := Bool.eq_false_iff.mpr h
      rw [List.pairwise_cons]
      refine ⟨fun x hx => ?_, List.Pairwise.cons hb ht⟩
      rcases List.mem_cons.mp hx with rfl | hx
      · exact h'
      · exact hneg a b x h' (hb x hx)

theorem pairwise_isortBy {α : Type} (lt : α → α → Bool)
    (hasym : ∀ x y, lt x y = true → lt y x = false)
    (hneg : ∀ x y z, lt y x = false → lt z y = false → lt z x = false)
    (l : List α) :
    (isortBy lt l).Pairwise (fun x y => lt y x = false) := by
  induction l with
  | nil => simp [isortBy]
  | cons a t ih => exact pairwise_insertBy lt hasym hneg a (isortBy lt t) ih

theorem filter_insertBy {α : Type} (lt : α → α → Bool) (p : α → Bool)
    (a : α) (s : List α)
    (hp : p a = true → ∀ b, p b = true → lt b a = false) :
    (insertBy lt a s).filter p = if p a then a :: s.filter p else s.filter p := by
  induction s with
  | nil => by_cases h : p a <;> simp [insertBy, List.filter, h]
  | cons b t ih =>
    rw [insertBy]
    split
    case isTrue h =>
      by_cases hpa : p a = true
      · have hpb : p b = false := by
          rcases Bool.eq_false_or_eq_true (p b) with hb | hb
          · rw [hp hpa b hb] at h
            cases h
          · exact hb
        simp only [List.filter_cons, hpb, hpa, if_true, Bool.false_eq_true, if_false, ih]
      · have hpa' : p a = false := by simpa using hpa
        simp only [List.filter_cons, hpa', Bool.false_eq_true, if_false, ih]
    case isFalse h =>
      by_cases hpa : p a = true <;> simp [List.filter_cons, hpa]

theorem filter_isortBy {α : Type} (lt : α → α → Bool) (p : α → Bool)
    (hp : ∀ a b, p a = true → p b = true → lt b a = false)
    (l : List α) :
    (isortBy lt l).filter p = l.filter p := by
  induction l with
  | nil => rfl
  | cons a t ih =>
    have : isortBy lt (a :: t) = insertBy lt a (isortBy lt t) := rfl
    rw [this, filter_insertBy lt p a (isortBy lt t) (fun hpa b hpb => hp a b hpa hpb), ih]
    by_cases hpa : p a = true <;> simp [List.filter_cons, hpa]

theorem pvLtB_iff (x y : PVal) : pvLtB x y = true ↔ pvKeyL x < pvKeyL y := by
  rw [pvLtB, pvKeyL, pvKeyL, Prod.Lex.lt_iff]
  simp

theorem pvKeyEq_iff (x y : PVal) : pvKeyEq x y = true ↔ pvKeyL x = pvKeyL y := by
  rw [pvKeyEq, pvKeyL, pvKeyL]
  constructor
  · intro h
    simp at h
    exact congrArg toLex (Prod.ext h.1 h.2)
  · intro h
    have := congrArg ofLex h
    simp at this
    simp [this.1, this.2]

theorem rowLtB_iff (ai bi : Nat) (a b : List PVal) :
    rowLtB ai bi a b = true ↔ rowKey ai bi a < rowKey ai bi b := by
  rw [rowLtB, rowKey, rowKey, Prod.Lex.lt_iff]
  simp only [Bool.or_eq_true, Bool.and_eq_true, pvLtB_iff, pvKeyEq_iff, OrderDual.toDual_lt_toDual]

theorem rowLtB_asymm (ai bi : Nat) (x y : List PVal) (h : rowLtB ai bi x y = true) :
    rowLtB ai bi y x = false := by
  rw [Bool.eq_false_iff]
  intro hc
  exact lt_asymm ((rowLtB_iff ai bi x y).mp h) ((rowLtB_iff ai bi y x).mp hc)

theorem rowLtB_negtrans (ai bi : Nat) (x y z : List PVal)
    (h1 : rowLtB ai bi y x = false) (h2 : rowLtB ai bi z y = false) :
    rowLtB ai bi z x = false := by
  rw [Bool.eq_false_iff] at h1 h2 ⊢
  intro hc
  have hx : rowKey ai bi x ≤ rowKey ai bi y := by
    by_contra hlt
    exact h1 ((rowLtB_iff ai bi y x).mpr (lt_of_not_ge hlt))
  have hy : rowKey ai bi y ≤ rowKey ai bi z := by
    by_contra hlt
    exact h2 ((rowLtB_iff ai bi z y).mpr (lt_of_not_ge hlt))
  exact absurd ((rowLtB_iff ai bi z x).mp hc) (not_lt_of_ge (hx.trans hy))

theorem rowLtB_of_cells_eq (ai bi : Nat) (x y : List PVal)
    (ha : x.getD ai .na = y.getD ai .na) (hb : x.getD bi .na = y.getD bi .na) :
    rowLtB ai bi x y = false := by
  rw [Bool.eq_false_iff]
  intro hc
  have hk : rowKey ai bi x = rowKey ai bi y := by
    rw [rowKey, rowKey, ha, hb]
  exact lt_irrefl _ (hk ▸ (rowLtB_iff ai bi x y).mp hc)

theorem DF.mem_dropna (df : DF) (cs : List String) (r : List PVal) :
    r ∈ (df.dropna cs).rows ↔ r ∈ df.rows ∧ ∀ c ∈ cs, df.cellOf r c ≠ .na := by
  rw [DF.dropna]
  dsimp only
  rw [List.mem_filter]
  refine and_congr_right (fun _ => ?_)
  rw [List.all_eq_true]
  refine forall_congr' (fun c => ?_)
  refine imp_congr_right (fun _ => ?_)
  rw [not_pvIsNa_iff]

theorem zipWith_cols (df : DF) (f : PVal → PVal → PVal) (a b : String) :
    List.zipWith f (df.col a) (df.col b)
      = df.rows.map (fun r => f (df.cellOf r a) (df.cellOf r b)) := by
  rw [DF.col, DF.col, List.zipWith_map, zipWith_self_eq_map]

theorem DF.assign_append_rows (df : DF) (c : String) (vals : List PVal)
    (hne : ¬ df.cols.isEmpty) (hc : df.cols.findIdx? (fun x => x = c) = none) :
    (df.assign c vals).rows = List.zipWith (fun r v => r ++ [v]) df.rows vals := by
  rw [DF.assign, if_neg hne, hc]

theorem DF.assign_map_rows (df : DF) (c : String) (g : List PVal → PVal)
    (hne : ¬ df.cols.isEmpty) (hc : df.cols.findIdx? (fun x => x = c) = none) :
    (df.assign c (df.rows.map g)).rows = df.rows.map (fun r => r ++ [g r]) := by
  rw [DF.assign_append_rows df c _ hne hc, List.zipWith_map_right, zipWith_self_eq_map]

theorem mem_groupMaxBy (df : DF) (key val : String) (r : List PVal) :
    r ∈ (groupMaxBy df key val).rows ↔
      ∃ k, (∃ row ∈ df.rows, df.cellOf row key = k) ∧
        r = [k, ((df.rows.filter (fun row => df.cellOf row key = k)).map
          (fun row => df.cellOf row val)).foldl pvMax2 .na] := by
  rw [groupMaxBy]
  dsimp only
  rw [List.mem_map]
  constructor
  · rintro ⟨k, hk, rfl⟩
    have hk' : k ∈ (df.rows.map (fun r => df.cellOf r key)).dedup := by
      exact (mem_isortBy pvLtB _ _).mp hk
    rw [List.mem_dedup, List.mem_map] at hk'
    obtain ⟨row, hrow, rfl⟩ := hk'
    exact ⟨_, ⟨row, hrow, rfl⟩, rfl⟩
  · rintro ⟨k, ⟨row, hrow, rfl⟩, rfl⟩
    refine ⟨_, ?_, rfl⟩
    rw [mem_isortBy pvLtB, List.mem_dedup, List.mem_map]
    exact ⟨row, hrow, rfl⟩

theorem panelParts_eq (m pibT popT areaT : DF) :
    panelParts m pibT popT areaT =
      ((panelJoin3 m pibT popT areaT).assign "pib_pc"
        (List.zipWith pvDiv ((panelJoin3 m pibT popT areaT).col "pib")
          ((panelJoin3 m pibT popT areaT).col "pop"))).assign "pib_km2"
        (List.zipWith (fun a p => if !pvIsNa a && pvPos a then pvDiv p a else .na)
          (((panelJoin3 m pibT popT areaT).assign "pib_pc"
            (List.zipWith pvDiv ((panelJoin3 m pibT popT areaT).col "pib")
              ((panelJoin3 m pibT popT areaT).col "pop"))).col "area")
          (((panelJoin3 m pibT popT areaT).assign "pib_pc"
            (List.zipWith pvDiv ((panelJoin3 m pibT popT areaT).col "pib")
              ((panelJoin3 m pibT popT areaT).col "pop"))).col "pib")) := rfl

theorem pibPopJoin_cols (pibT popT : DF)
    (hp : pibT.cols = ["code_muni", "municipio", "ano", "pib"])
    (hq : popT.cols = ["code_muni", "municipio", "ano", "pop"]) :
    (pibPopJoin pibT popT).cols =
      ["code_muni", "municipio", "ano", "pib", "municipio_pop", "pop"] := by
  rw [pibPopJoin, DF.merge_cols, DF.dropna_cols, DF.dropna_cols, hp, hq]
  decide

theorem panelJoin2_cols (m pibT popT : DF)
    (hp : pibT.cols = ["code_muni", "municipio", "ano", "pib"])
    (hq : popT.cols = ["code_muni", "municipio", "ano", "pop"]) :
    (panelJoin2 m pibT popT).cols =
      ["code_muni", "municipio_x", "ano", "pib", "municipio_pop", "pop", "municipio_y"] := by
  rw [panelJoin2, DF.merge_cols, DF.select_cols, pibPopJoin_cols pibT popT hp hq]
  decide

theorem panelJoin3_cols (m pibT popT areaT : DF)
    (hp : pibT.cols = ["code_muni", "municipio", "ano", "pib"])
    (hq : popT.cols = ["code_muni", "municipio", "ano", "pop"]) :
    (panelJoin3 m pibT popT areaT).cols =
      ["code_muni", "municipio_x", "ano", "pib", "municipio_pop", "pop", "municipio_y", "area"] := by
  rw [panelJoin3, DF.merge_cols, areaAgg_cols, panelJoin2_cols m pibT popT hp hq]
  decide

theorem panelParts_cols (m pibT popT areaT : DF)
    (hp : pibT.cols = ["code_muni", "municipio", "ano", "pib"])
    (hq : popT.cols = ["code_muni", "municipio", "ano", "pop"]) :
    (panelParts m pibT popT areaT).cols =
      ["code_muni", "municipio_x", "ano", "pib", "municipio_pop", "pop", "municipio_y",
        "area", "pib_pc", "pib_km2"] := by
  rw [panelParts_eq, DF.assign_cols, DF.assign_cols, panelJoin3_cols m pibT popT areaT hp hq]
  decide

theorem toInt64Col_ok_of (l : List PVal)
    (h : ∀ v ∈ l, intSafeB (toNumericCell v) = true) :
    ∃ ws, toInt64Col l = .ok ws := by
  rw [toInt64Col]
  exact castInt64Col_ok_of _ (fun w hw => by
    obtain ⟨v, hv, rfl⟩ := List.mem_map.mp hw
    exact h v hv)

theorem cell_safe_of_row_safe (df : DF) (r : List PVal) (c : String)
    (h : ∀ v ∈ r, intSafeB (toNumericCell v) = true) :
    intSafeB (toNumericCell (df.cellOf r c)) = true := by
  rw [DF.cellOf]
  cases hix : df.colIdx c with
  | none => rfl
  | some i =>
    dsimp only
    rcases getD_mem_or_default r i PVal.na with hm | hm
    · exact h _ hm
    · rw [hm]; rfl

theorem codesCol_ok_of_safe (df : DF)
    (h : ∀ r ∈ df.rows, ∀ v ∈ r, intSafeB (toNumericCell v) = true) :
    ∃ cs, codesCol df = .ok cs := by
  rw [codesCol]
  cases chosenCodeCol df with
  | some c =>
    refine toInt64Col_ok_of _ (fun v hv => ?_)
    obtain ⟨r, hr, rfl⟩ := List.mem_map.mp hv
    exact cell_safe_of_row_safe df r c (h r hr)
  | none => exact ⟨_, rfl⟩

theorem anosCol_ok_of_safe (df : DF)
    (h : ∀ r ∈ df.rows, ∀ v ∈ r, intSafeB (toNumericCell v) = true) :
    ∃ as, anosCol df = .ok as := by
  rw [anosCol]
  cases _extract_time_col df with
  | some c =>
    refine toInt64Col_ok_of _ (fun v hv => ?_)
    obtain ⟨r, hr, rfl⟩ := List.mem_map.mp hv
    exact cell_safe_of_row_safe df r c (h r hr)
  | none => exact ⟨_, rfl⟩

theorem getD_map' {α β : Type} (f : α → β) (l : List α) (i : Nat) (d : β) (da : α)
    (hi : i < l.length) : (l.map f).getD i d = f (l.getD i da) := by
  rw [List.getD_eq_getElem _ _ (by simpa using hi), List.getElem_map,
    List.getD_eq_getElem _ _ hi]

theorem getD_replicate_of_lt {α : Type} (n i : Nat) (x d : α) (hi : i < n) :
    (List.replicate n x).getD i d = x := by
  rw [List.getD_eq_getElem _ _ (by simpa using hi), List.getElem_replicate]

theorem castInt64Col_ok_getD : ∀ (l ws : List PVal), castInt64Col l = .ok ws →
    ∀ i, i < l.length → castInt64Cell (l.getD i .na) = .ok (ws.getD i .na)
  | [], _, _, i, hi => by simp at hi
  | v :: t, ws, h, i, hi => by
    rw [castInt64Col] at h
    cases hc : castInt64Cell v with
    | error e => rw [hc] at h; cases h
    | ok w =>
      cases ht : castInt64Col t with
      | error e => rw [hc, ht] at h; cases h
      | ok ws' =>
        rw [hc, ht] at h
        cases h
        cases i with
        | zero => simpa using hc
        | succ j =>
          simp only [List.getD_cons_succ]
          exact castInt64Col_ok_getD t ws' ht j (by simpa using hi)

/-- C7: for every raw table lacking a column literally named `V`,
`normalize_sidra_table` raises the structural missing-value-column error,
regardless of which other columns are present; consequently, if any of the
three raw tables handed to `build_panel` lacks `V`, the whole panel build
aborts with an error and produces no partial result. -/
theorem c7_missing_value_fatal :
    (∀ (t : DF) (vn : String) (k : Bool), t.cols.contains "V" = false →
      normalize_sidra_table t vn k = .error missingVMsg) ∧
    (∀ mun pib pop area : DF,
      pib.cols.contains "V" = false ∨ pop.cols.contains "V" = false ∨
        area.cols.contains "V" = false →
      ∀ p, build_panel mun pib pop area ≠ .ok p) := by
  have h1 : ∀ (t : DF) (vn : String) (k : Bool), t.cols.contains "V" = false →
      normalize_sidra_table t vn k = .error missingVMsg := by
    intro t vn k hV
    refine normalize_noV t vn k ?_
    rw [drop_header_cols]
    exact hV
  refine ⟨h1, ?_⟩
  intro mun pib pop area hdisj p hok
  obtain ⟨q, hq, -⟩ := build_panel_ok_inv mun pib pop area p hok
  obtain ⟨m, pibT, popT, areaT, _, hpib, hpop, harea, _, _⟩ :=
    build_panel_presort_ok_inv _ _ _ _ _ hq
  rcases hdisj with h | h | h
  · rw [h1 pib "pib" false h] at hpib; cases hpib
  · rw [h1 pop "pop" false h] at hpop; cases hpop
  · rw [h1 area "area" false h] at harea; cases harea

/-- Witness for C7 on concrete tables: a table without `V` makes the
normalizer raise, and a panel build whose area table lacks `V` yields no
panel. -/
theorem c7_witness :
    normalize_sidra_table cNoV "pib" false = .error missingVMsg ∧
    ∀ p, build_panel cMun cPib cPop cNoV ≠ .ok p :=
  ⟨c7_missing_value_fatal.1 cNoV "pib" false (by decide),
   c7_missing_value_fatal.2 cMun cPib cPop cNoV (Or.inr (Or.inr (by decide)))⟩

theorem DF.cellOf_mk (cols : List String) (rows : List (List PVal)) (r : List PVal)
    (c : String) (i : Nat) (h : cols.findIdx? (fun x => x = c) = some i) :
    DF.cellOf ⟨cols, rows⟩ r c = r.getD i .na := by
  rw [DF.cellOf, DF.colIdx]
  dsimp only
  rw [h]

/-- C8: every row of the tidy table returned by `normalize_sidra_table` (for
an indicator name distinct from the three canonical key columns, with the
default extra-dimension setting) carries a non-missing indicator value, and a
raw table whose `V` entries are all non-numeric normalizes to the empty tidy
table. -/
theorem c8_no_missing_values :
    (∀ (t : DF) (vn : String) (out : DF),
      vn ≠ "code_muni" → vn ≠ "municipio" → vn ≠ "ano" →
      normalize_sidra_table t vn false = .ok out →
      ∀ r ∈ out.rows, out.cellOf r vn ≠ .na) ∧
    (∀ (t : DF) (vn : String),
      vn ≠ "code_muni" → vn ≠ "municipio" → vn ≠ "ano" →
      t.cols.contains "V" = true →
      (∀ r ∈ t.rows, _coerce_numeric_cell (t.cellOf r "V") = none) →
      normalize_sidra_table t vn false = .ok ⟨["code_muni", "municipio", "ano", vn], []⟩) := by
  constructor
  · intro t vn out hv1 hv2 hv3 hok r hr
    obtain ⟨-, codes, anos, -, -, rfl⟩ := normalize_ok_shape t vn out hv1 hv2 hv3 hok
    rw [DF.cellOf_mk _ _ r vn 3 (colIdx_quad3 vn hv1 hv2 hv3)]
    have := (List.mem_filter.mp hr).2
    exact (not_pvIsNa_iff _).mp this
  · intro t vn hv1 hv2 hv3 hV hbad
    have hdrop : _drop_header_like_rows t = ⟨t.cols, []⟩ := by
      rw [_drop_header_like_rows, if_pos hV]
      congr 1
      rw [List.filter_eq_nil_iff]
      intro r hr
      simp [hbad r hr]
    have hVd : (_drop_header_like_rows t).cols.contains "V" = true := by
      rw [drop_header_cols]; exact hV
    have hcs : codesCol (_drop_header_like_rows t) = .ok [] := by
      rw [codesCol]
      cases chosenCodeCol (_drop_header_like_rows t) with
      | some c => rw [hdrop]; rfl
      | none => rw [hdrop]; rfl
    have has : anosCol (_drop_header_like_rows t) = .ok [] := by
      rw [anosCol]
      cases _extract_time_col (_drop_header_like_rows t) with
      | some c => rw [hdrop]; rfl
      | none => rw [hdrop]; rfl
    have := normalize_eq_of_ok_cols t vn hv1 hv2 hv3 [] [] hVd hcs has
    rw [this]
    rfl

/-- Witness for C8: the concrete GDP table normalizes to rows whose `pib`
cell is never missing, and a table whose `V` cells are all non-numeric
normalizes to the empty tidy table. -/
theorem c8_witness :
    (∀ r ∈ (DF.mk ["code_muni", "municipio", "ano", "pib"]
        [[.i 1, .s "alpha", .i 2020, .q 100],
         [.i 2, .s "beta", .i 2020, .q 40],
         [.i 4, .s "delta", .i 2020, .q 70]]).rows,
      DF.cellOf ⟨["code_muni", "municipio", "ano", "pib"],
        [[.i 1, .s "alpha", .i 2020, .q 100],
         [.i 2, .s "beta", .i 2020, .q 40],
         [.i 4, .s "delta", .i 2020, .q 70]]⟩ r "pib" ≠ .na) ∧
    normalize_sidra_table cAllBadV "pib" false =
      .ok ⟨["code_muni", "municipio", "ano", "pib"], []⟩ :=
  ⟨c8_no_missing_values.1 cPib "pib" _ (by decide) (by decide) (by decide) rfl,
   c8_no_missing_values.2 cAllBadV "pib" (by decide) (by decide) (by decide) (by decide)
     (by decide)⟩

/-- C10: neither function mutates its input objects. Run on a heap holding
just the raw table, the imperative normalizer leaves the input object
untouched; run on a heap holding the four arguments, the imperative panel
builder leaves the municipality reference untouched. -/
theorem c10_no_input_mutation :
    (∀ (t : DF) (vn : String) (k : Bool),
      ((normalize_sidra_table_imp ⟨[t]⟩ 0 vn k).1).get 0 = t) ∧
    (∀ mun pib pop area : DF,
      ((build_panel_imp ⟨[mun, pib, pop, area]⟩ 0 1 2 3).1).get 0 = mun) := by
  constructor
  · intro t vn k
    have h := (normalize_sidra_table_imp_ext ⟨[t]⟩ 0 vn k).2 0 (by simp)
    rw [h]
    rfl
  · intro mun pib pop area
    have h := (build_panel_imp_ext ⟨[mun, pib, pop, area]⟩ 0 1 2 3).2 0 (by simp)
    rw [h]
    rfl

theorem areaAgg_fold (areaT : DF) (k : PVal) (hkna : k ≠ .na) :
    (((areaT.dropna ["code_muni"]).rows.filter
        (fun row => (areaT.dropna ["code_muni"]).cellOf row "code_muni" = k)).map
      (fun row => (areaT.dropna ["code_muni"]).cellOf row "area")).foldl pvMax2 .na
    = ((areaT.rows.filter (fun row => areaT.cellOf row "code_muni" = k)).map
      (fun row => areaT.cellOf row "area")).foldl pvMax2 .na := by
  have hfil : (areaT.dropna ["code_muni"]).rows.filter
      (fun row => (areaT.dropna ["code_muni"]).cellOf row "code_muni" = k)
      = areaT.rows.filter (fun row => areaT.cellOf row "code_muni" = k) := by
    rw [DF.dropna]
    dsimp only
    rw [List.filter_filter]
    refine List.filter_congr (fun row _ => ?_)
    by_cases hr : areaT.cellOf row "code_muni" = k
    · have hna : ¬ pvIsNa (areaT.cellOf row "code_muni") = true := by
        intro hna
        exact hkna (hr.symm.trans ((pvIsNa_iff _).mp hna))
      simp only [hr, hna]
      simp [hr]
      exact ⟨hr, Bool.eq_false_iff.mpr (fun h => hkna ((pvIsNa_iff k).mp h))⟩
    · simp [hr]
      intro h
      exact absurd h hr
  rw [hfil]
  rfl

/-- C9: the area aggregation of `build_panel` drops rows with a null
`code_muni` and keeps, per remaining code, the maximum observed area: its
output rows are exactly one `[code, max]` row per non-null code occurring in
the tidy area table; on the concrete rows `{(10, 5), (10, 8), (11, 3)}` it
yields `{10 : 8, 11 : 3}`. -/
theorem c9_area_aggregation :
    (∀ (areaT : DF) (r : List PVal),
      r ∈ (areaAgg areaT).rows ↔
        ∃ k, k ≠ .na ∧ (∃ row ∈ areaT.rows, areaT.cellOf row "code_muni" = k) ∧
          r = [k, ((areaT.rows.filter (fun row => areaT.cellOf row "code_muni" = k)).map
            (fun row => areaT.cellOf row "area")).foldl pvMax2 .na]) ∧
    (areaAgg cAreaTidy).rows = [[.i 10, .q 8], [.i 11, .q 3]] := by
  constructor
  · intro areaT r
    rw [areaAgg, mem_groupMaxBy]
    have hcell : ∀ row, (areaT.dropna ["code_muni"]).cellOf row "code_muni"
        = areaT.cellOf row "code_muni" := fun _ => rfl
    constructor
    · rintro ⟨k, ⟨row, hrow, hk⟩, rfl⟩
      rw [DF.mem_dropna] at hrow
      have hkna : k ≠ .na := by
        rw [hcell] at hk
        rw [← hk]
        exact hrow.2 "code_muni" (List.mem_singleton.mpr rfl)
      refine ⟨k, hkna, ⟨row, hrow.1, by rw [hcell] at hk; exact hk⟩, ?_⟩
      rw [areaAgg_fold areaT k hkna]
    · rintro ⟨k, hkna, ⟨row, hrow, hk⟩, rfl⟩
      refine ⟨k, ⟨row, ?_, by rw [hcell]; exact hk⟩, ?_⟩
      · rw [DF.mem_dropna]
        refine ⟨hrow, fun c hc => ?_⟩
        rw [List.mem_singleton.mp hc, hk]
        exact hkna
      · rw [areaAgg_fold areaT k hkna]
  · rfl

/-- Counterexample to C6: the claimed separator-normalizing coercion would
turn the code cell `"1.234.567"` into the number `1234567`, but the code
column actually goes through the plain `pd.to_numeric` parse, so the
normalized `code_muni` is null. -/
theorem c6_counterexample :
    normalize_sidra_table cDotCode "pib" false =
      .ok ⟨["code_muni", "municipio", "ano", "pib"], [[.na, .s "", .i 2020, .q 10]]⟩ ∧
    _coerce_numeric_cell (.s "1.234.567") = some (mkRat 1234567 1) :=
  ⟨rfl, rfl⟩

/-- C6 (amended): the strip-dots/comma-to-dot coercion (`_coerce_numeric`)
governs the value column only — `"1.234,56"` coerces to `1234.56`, `"12,5"`
to `12.5`, non-numeric strings to missing, never raising — while code and
year columns are parsed by the plain `pd.to_numeric` parse with no separator
normalization (so `"1.234,56"` and `"1.234.567"` become missing there). In
every successful normalization, each output row's value cell is the
`_coerce_numeric` coercion of the source row's `V` cell, and its `code_muni`
cell is the `Int64` cast of the plain parse of the source row's cell in the
discovered code column. -/
theorem c6_coercion_per_column :
    (_coerce_numeric_cell (.s "1.234,56") = some (mkRat 123456 100) ∧
     _coerce_numeric_cell (.s "12,5") = some (mkRat 125 10) ∧
     _coerce_numeric_cell (.s "banana") = none) ∧
    (toNumericCell (.s "1.234,56") = .na ∧
     toNumericCell (.s "1.234.567") = .na ∧
     toNumericCell (.s "2020") = .q (mkRat 2020 1)) ∧
    (∀ (t : DF) (vn : String) (out : DF),
      vn ≠ "code_muni" → vn ≠ "municipio" → vn ≠ "ano" →
      normalize_sidra_table t vn false = .ok out →
      ∀ row ∈ out.rows, ∃ src ∈ (_drop_header_like_rows t).rows,
        row.getD 3 .na =
          pvOfNum (_coerce_numeric_cell ((_drop_header_like_rows t).cellOf src "V")) ∧
        ∀ c, chosenCodeCol (_drop_header_like_rows t) = some c →
          castInt64Cell (toNumericCell ((_drop_header_like_rows t).cellOf src c)) =
            .ok (row.getD 0 .na)) := by
  refine ⟨⟨rfl, rfl, rfl⟩, ⟨rfl, rfl, rfl⟩, ?_⟩
  intro t vn out hv1 hv2 hv3 hok row hrow
  obtain ⟨hV, codes, anos, hcs, has, rfl⟩ := normalize_ok_shape t vn out hv1 hv2 hv3 hok
  set df := _drop_header_like_rows t with hdf
  have hlm : (munisCol df).length = codes.length := by
    rw [munisCol_length, codesCol_ok_length _ _ hcs]
  have hla : anos.length = codes.length := by
    rw [anosCol_ok_length _ _ has, codesCol_ok_length _ _ hcs]
  have hlv : (valsCol df).length = codes.length := by
    rw [valsCol_length, codesCol_ok_length _ _ hcs]
  obtain ⟨i, hi, rfl⟩ := mem_filter_mkRows4_shape _ _ _ _ hlm hla hlv _ row hrow
  have hn : codes.length = df.rows.length := codesCol_ok_length _ _ hcs
  have hirows : i < df.rows.length := hn ▸ hi
  refine ⟨df.rows.getD i [], ?_, ?_, ?_⟩
  · rw [List.getD_eq_getElem _ _ hirows]
    exact List.getElem_mem hirows
  · simp only [List.getD_cons_succ, List.getD_cons_zero]
    rw [valsCol, _coerce_numeric]
    rw [getD_map' _ _ _ _ PVal.na (by rw [DF.col_length]; exact hirows)]
    rw [DF.col, getD_map' _ _ _ _ [] hirows]
  · intro c hc
    simp only [List.getD_cons_succ, List.getD_cons_zero]
    have hcs' : toInt64Col (df.col c) = .ok codes := by
      rw [codesCol, hc] at hcs
      exact hcs
    rw [toInt64Col] at hcs'
    have := castInt64Col_ok_getD _ _ hcs' i (by simp [DF.col_length]; exact hirows)
    rw [getD_map' _ _ _ _ PVal.na (by rw [DF.col_length]; exact hirows)] at this
    rw [DF.col, getD_map' _ _ _ _ [] hirows] at this
    exact this

/-- Witness for the general clause of C6 (amended) on the concrete GDP table:
its single discovered code column is `Município (Código)`. -/
theorem c6_witness :
    ∀ row ∈ (DF.mk ["code_muni", "municipio", "ano", "pib"]
      [[.i 1, .s "alpha", .i 2020, .q 100],
       [.i 2, .s "beta", .i 2020, .q 40],
       [.i 4, .s "delta", .i 2020, .q 70]]).rows,
      ∃ src ∈ (_drop_header_like_rows cPib).rows,
        row.getD 3 .na =
          pvOfNum (_coerce_numeric_cell ((_drop_header_like_rows cPib).cellOf src "V")) ∧
        ∀ c, chosenCodeCol (_drop_header_like_rows cPib) = some c →
          castInt64Cell (toNumericCell ((_drop_header_like_rows cPib).cellOf src c)) =
            .ok (row.getD 0 .na) :=
  c6_coercion_per_column.2.2 cPib "pib" _ (by decide) (by decide) (by decide) rfl

theorem DF.cellOf_eq (df : DF) (r : List PVal) (c : String) (i : Nat)
    (h : df.cols.findIdx? (fun x => x = c) = some i) :
    df.cellOf r c = r.getD i .na := by
  rw [DF.cellOf, DF.colIdx, h]

theorem merge_row_len (l r : DF) (ks : List String) (lj : Bool) (sl sr : String)
    (L : Nat) (hl : ∀ x ∈ l.rows, x.length = L) :
    ∀ x ∈ (DF.merge l r ks lj sl sr).rows, x.length = L + (rKeepCols r ks).length := by
  intro x hx
  rcases (DF.mem_merge_rows l r ks lj sl sr x).mp hx with
    ⟨lr, hlr, ⟨rr, _, _, rfl⟩ | ⟨_, _, rfl⟩⟩ <;>
    simp [hl lr hlr]

theorem pibPopJoin_row_len (pibT popT : DF)
    (hq : popT.cols = ["code_muni", "municipio", "ano", "pop"])
    (hlp : ∀ r ∈ pibT.rows, r.length = 4) :
    ∀ x ∈ (pibPopJoin pibT popT).rows, x.length = 6 := by
  have hk : (rKeepCols (popT.dropna ["code_muni", "ano"]) ["code_muni", "ano"]).length = 2 := by
    rw [rKeepCols, DF.dropna_cols, hq]
    decide
  intro x hx
  have := merge_row_len (pibT.dropna ["code_muni", "ano"]) (popT.dropna ["code_muni", "ano"])
    ["code_muni", "ano"] false "" "_pop" 4 ?_ x hx
  · rw [hk] at this
    exact this
  · intro y hy
    exact hlp y ((DF.mem_dropna _ _ _).mp hy).1

theorem panelJoin2_row_len (m pibT popT : DF)
    (hq : popT.cols = ["code_muni", "municipio", "ano", "pop"])
    (hlp : ∀ r ∈ pibT.rows, r.length = 4) :
    ∀ x ∈ (panelJoin2 m pibT popT).rows, x.length = 7 := by
  intro x hx
  have := merge_row_len (pibPopJoin pibT popT) (m.select ["code_muni", "municipio"])
    ["code_muni"] true "_x" "_y" 6 (pibPopJoin_row_len pibT popT hq hlp) x hx
  simpa [rKeepCols] using this

theorem panelJoin3_row_len (m pibT popT areaT : DF)
    (hq : popT.cols = ["code_muni", "municipio", "ano", "pop"])
    (hlp : ∀ r ∈ pibT.rows, r.length = 4) :
    ∀ x ∈ (panelJoin3 m pibT popT areaT).rows, x.length = 8 := by
  intro x hx
  have := merge_row_len (panelJoin2 m pibT popT) (areaAgg areaT)
    ["code_muni"] true "_x" "_y" 7 (panelJoin2_row_len m pibT popT hq hlp) x hx
  simpa [rKeepCols, areaAgg_cols] using this

theorem normalize_ok_cols_len (t : DF) (vn : String) (out : DF)
    (hv1 : vn ≠ "code_muni") (hv2 : vn ≠ "municipio") (hv3 : vn ≠ "ano")
    (hok : normalize_sidra_table t vn false = .ok out) :
    out.cols = ["code_muni", "municipio", "ano", vn] ∧ ∀ r ∈ out.rows, r.length = 4 := by
  obtain ⟨hV, codes, anos, hcs, has, rfl⟩ := normalize_ok_shape t vn out hv1 hv2 hv3 hok
  refine ⟨rfl, fun r hr => ?_⟩
  have hlm : (munisCol (_drop_header_like_rows t)).length = codes.length := by
    rw [munisCol_length, codesCol_ok_length _ _ hcs]
  have hla : anos.length = codes.length := by
    rw [anosCol_ok_length _ _ has, codesCol_ok_length _ _ hcs]
  have hlv : (valsCol (_drop_header_like_rows t)).length = codes.length := by
    rw [valsCol_length, codesCol_ok_length _ _ hcs]
  obtain ⟨i, _, rfl⟩ := mem_filter_mkRows4_shape codes _ anos _ hlm hla hlv _ r hr
  rfl

theorem panelParts_rows (m pibT popT areaT : DF)
    (hp : pibT.cols = ["code_muni", "municipio", "ano", "pib"])
    (hq : popT.cols = ["code_muni", "municipio", "ano", "pop"]) :
    (panelParts m pibT popT areaT).rows =
      (panelJoin3 m pibT popT areaT).rows.map (fun r =>
        (r ++ [pvDiv (r.getD 3 .na) (r.getD 5 .na)]) ++
        [if !pvIsNa ((r ++ [pvDiv (r.getD 3 .na) (r.getD 5 .na)]).getD 7 .na) &&
            pvPos ((r ++ [pvDiv (r.getD 3 .na) (r.getD 5 .na)]).getD 7 .na)
          then pvDiv ((r ++ [pvDiv (r.getD 3 .na) (r.getD 5 .na)]).getD 3 .na)
            ((r ++ [pvDiv (r.getD 3 .na) (r.getD 5 .na)]).getD 7 .na) else .na]) := by
  have hc3 := panelJoin3_cols m pibT popT areaT hp hq
  have hne3 : ¬ (panelJoin3 m pibT popT areaT).cols.isEmpty = true := by
    rw [hc3]; decide
  have hid4 : (panelJoin3 m pibT popT areaT).cols.findIdx? (fun x => x = "pib_pc") = none := by
    rw [hc3]; decide
  have hpib3 : (panelJoin3 m pibT popT areaT).cols.findIdx? (fun x => x = "pib") = some 3 := by
    rw [hc3]; decide
  have hpop3 : (panelJoin3 m pibT popT areaT).cols.findIdx? (fun x => x = "pop") = some 5 := by
    rw [hc3]; decide
  have hv1 : List.zipWith pvDiv ((panelJoin3 m pibT popT areaT).col "pib")
      ((panelJoin3 m pibT popT areaT).col "pop")
      = (panelJoin3 m pibT popT areaT).rows.map
          (fun r => pvDiv (r.getD 3 .na) (r.getD 5 .na)) := by
    rw [zipWith_cols]
    exact List.map_congr_left (fun r _ => by
      rw [DF.cellOf_eq _ r "pib" 3 hpib3, DF.cellOf_eq _ r "pop" 5 hpop3])
  have h4rows : ((panelJoin3 m pibT popT areaT).assign "pib_pc"
      (List.zipWith pvDiv ((panelJoin3 m pibT popT areaT).col "pib")
        ((panelJoin3 m pibT popT areaT).col "pop"))).rows
      = (panelJoin3 m pibT popT areaT).rows.map
          (fun r => r ++ [pvDiv (r.getD 3 .na) (r.getD 5 .na)]) := by
    rw [hv1, DF.assign_map_rows _ _ _ hne3 hid4]
  have hc4 : ((panelJoin3 m pibT popT areaT).assign "pib_pc"
      (List.zipWith pvDiv ((panelJoin3 m pibT popT areaT).col "pib")
        ((panelJoin3 m pibT popT areaT).col "pop"))).cols
      = ["code_muni", "municipio_x", "ano", "pib", "municipio_pop", "pop", "municipio_y",
          "area", "pib_pc"] := by
    rw [DF.assign_cols, hc3]
    decide
  have hne4 : ¬ ((panelJoin3 m pibT popT areaT).assign "pib_pc"
      (List.zipWith pvDiv ((panelJoin3 m pibT popT areaT).col "pib")
        ((panelJoin3 m pibT popT areaT).col "pop"))).cols.isEmpty = true := by
    rw [hc4]; decide
  have hid5 : ((panelJoin3 m pibT popT areaT).assign "pib_pc"
      (List.zipWith pvDiv ((panelJoin3 m pibT popT areaT).col "pib")
        ((panelJoin3 m pibT popT areaT).col "pop"))).cols.findIdx?
        (fun x => x = "pib_km2") = none := by
    rw [hc4]; decide
  have harea4 : ((panelJoin3 m pibT popT areaT).assign "pib_pc"
      (List.zipWith pvDiv ((panelJoin3 m pibT popT areaT).col "pib")
        ((panelJoin3 m pibT popT areaT).col "pop"))).cols.findIdx?
        (fun x => x = "area") = some 7 := by
    rw [hc4]; decide
  have hpib4 : ((panelJoin3 m pibT popT areaT).assign "pib_pc"
      (List.zipWith pvDiv ((panelJoin3 m pibT popT areaT).col "pib")
        ((panelJoin3 m pibT popT areaT).col "pop"))).cols.findIdx?
        (fun x => x = "pib") = some 3 := by
    rw [hc4]; decide
  have hv2 : List.zipWith
      (fun a p => if !pvIsNa a && pvPos a then pvDiv p a else PVal.na)
      (((panelJoin3 m pibT popT areaT).assign "pib_pc"
        (List.zipWith pvDiv ((panelJoin3 m pibT popT areaT).col "pib")
          ((panelJoin3 m pibT popT areaT).col "pop"))).col "area")
      (((panelJoin3 m pibT popT areaT).assign "pib_pc"
        (List.zipWith pvDiv ((panelJoin3 m pibT popT areaT).col "pib")
          ((panelJoin3 m pibT popT areaT).col "pop"))).col "pib")
      = ((panelJoin3 m pibT popT areaT).assign "pib_pc"
        (List.zipWith pvDiv ((panelJoin3 m pibT popT areaT).col "pib")
          ((panelJoin3 m pibT popT areaT).col "pop"))).rows.map
          (fun x => if !pvIsNa (x.getD 7 .na) && pvPos (x.getD 7 .na)
            then pvDiv (x.getD 3 .na) (x.getD 7 .na) else PVal.na) := by
    rw [zipWith_cols]
    exact List.map_congr_left (fun x _ => by
      rw [DF.cellOf_eq _ x "area" 7 harea4, DF.cellOf_eq _ x "pib" 3 hpib4])
  rw [panelParts_eq, hv2, DF.assign_map_rows _ _ _ hne4 hid5, h4rows, List.map_map]
  rfl

theorem mem_panelParts (m pibT popT areaT : DF)
    (hp : pibT.cols = ["code_muni", "municipio", "ano", "pib"])
    (hq : popT.cols = ["code_muni", "municipio", "ano", "pop"])
    (hlp : ∀ r ∈ pibT.rows, r.length = 4) (row : List PVal) :
    row ∈ (panelParts m pibT popT areaT).rows ↔
      ∃ r, r ∈ (panelJoin3 m pibT popT areaT).rows ∧
        row = r ++ [pvDiv (r.getD 3 .na) (r.getD 5 .na),
          if !pvIsNa (r.getD 7 .na) && pvPos (r.getD 7 .na)
          then pvDiv (r.getD 3 .na) (r.getD 7 .na) else .na] := by
  rw [panelParts_rows m pibT popT areaT hp hq, List.mem_map]
  have hlen := panelJoin3_row_len m pibT popT areaT hq hlp
  constructor
  · rintro ⟨r, hr, rfl⟩
    refine ⟨r, hr, ?_⟩
    have h8 := hlen r hr
    rw [getD_append_left r _ 7 PVal.na (by omega), getD_append_left r _ 3 PVal.na (by omega),
      List.append_assoc]
    rfl
  · rintro ⟨r, hr, rfl⟩
    refine ⟨r, hr, ?_⟩
    have h8 := hlen r hr
    rw [getD_append_left r _ 7 PVal.na (by omega), getD_append_left r _ 3 PVal.na (by omega),
      List.append_assoc]
    rfl

theorem sortPanel_rows (p : DF) :
    (sortPanel p).rows =
      isortBy (rowLtB ((p.colIdx "ano").getD 0) ((p.colIdx "pib").getD 0)) p.rows := rfl

/-- C3: in every panel produced by `build_panel`, the `pib_pc` cell of every
row is the unguarded quotient of the `pib` cell by the `pop` cell (zero or
missing population yields a non-finite or missing value), while the `pib_km2`
cell is the quotient of `pib` by `area` exactly when the `area` cell is
non-missing and strictly positive, and is missing otherwise. -/
theorem c3_derived_metrics (mun pib pop area p : DF)
    (hok : build_panel mun pib pop area = .ok p) :
    p.cols = ["code_muni", "municipio_x", "ano", "pib", "municipio_pop", "pop", "municipio_y",
        "area", "pib_pc", "pib_km2"] ∧
    ∀ row ∈ p.rows,
      row.getD 8 .na = pvDiv (row.getD 3 .na) (row.getD 5 .na) ∧
      row.getD 9 .na = (if !pvIsNa (row.getD 7 .na) && pvPos (row.getD 7 .na)
        then pvDiv (row.getD 3 .na) (row.getD 7 .na) else .na) := by
  obtain ⟨q, hpre, hps⟩ := build_panel_ok_inv mun pib pop area p hok
  obtain ⟨m, pibT, popT, areaT, hm, hpib, hpop, harea, hmm, hqq⟩ :=
    build_panel_presort_ok_inv mun pib pop area q hpre
  obtain ⟨hp4, hlp⟩ :=
    normalize_ok_cols_len pib "pib" pibT (by decide) (by decide) (by decide) hpib
  obtain ⟨hq4, _⟩ :=
    normalize_ok_cols_len pop "pop" popT (by decide) (by decide) (by decide) hpop
  subst hps
  subst hqq
  refine ⟨?_, ?_⟩
  · rw [sortPanel_cols, panelParts_cols m pibT popT areaT hp4 hq4]
  · intro row hrow
    rw [sortPanel_rows, mem_isortBy] at hrow
    obtain ⟨r, hr, rfl⟩ := (mem_panelParts m pibT popT areaT hp4 hq4 hlp row).mp hrow
    have h8 : r.length = 8 := panelJoin3_row_len m pibT popT areaT hq4 hlp r hr
    rw [getD_append_left r _ 3 PVal.na (by omega), getD_append_left r _ 5 PVal.na (by omega),
      getD_append_left r _ 7 PVal.na (by omega)]
    refine ⟨?_, ?_⟩
    · rw [show (8 : Nat) = r.length + 0 by omega, getD_append_right]
      rfl
    · rw [show (9 : Nat) = r.length + 1 by omega, getD_append_right]
      rfl

theorem c3_witness :
    ∃ p, build_panel cMun cPib cPop cArea = .ok p ∧
      p.rows = [[.i 1, .s "alpha", .i 2020, .q 100, .s "alpha", .q 20, .s "Alpha",
          .q 10, .q 5, .q 10],
        [.i 4, .s "delta", .i 2020, .q 70, .s "delta", .q 10, .na, .q 0, .q 7, .na]] ∧
      (p.cols = ["code_muni", "municipio_x", "ano", "pib", "municipio_pop", "pop",
          "municipio_y", "area", "pib_pc", "pib_km2"] ∧
        ∀ row ∈ p.rows,
          row.getD 8 .na = pvDiv (row.getD 3 .na) (row.getD 5 .na) ∧
          row.getD 9 .na = (if !pvIsNa (row.getD 7 .na) && pvPos (row.getD 7 .na)
            then pvDiv (row.getD 3 .na) (row.getD 7 .na) else .na)) :=
  ⟨_, rfl, rfl, c3_derived_metrics cMun cPib cPop cArea _ rfl⟩

/-- C4: the panel returned by `build_panel` is the pre-sort panel stably
sorted by ascending `ano` and descending `pib`: same columns, a permutation
of the pre-sort rows, every pair of rows with integer years and rational
values in order (earlier year first, larger value first within a year), and
rows tied on both sort keys kept in their pre-sort relative order. -/
theorem c4_ordering (mun pib pop area p q : DF)
    (hok : build_panel mun pib pop area = .ok p)
    (hpre : build_panel_presort mun pib pop area = .ok q) :
    p.cols = q.cols ∧ p.rows.Perm q.rows ∧
    p.rows.Pairwise (fun a b => ∀ y1 y2 : Int, ∀ v1 v2 : ℚ,
      a.getD 2 .na = .i y1 → b.getD 2 .na = .i y2 →
      a.getD 3 .na = .q v1 → b.getD 3 .na = .q v2 →
      y1 < y2 ∨ (y1 = y2 ∧ v2 ≤ v1)) ∧
    ∀ y v : PVal,
      p.rows.filter (fun r => decide (r.getD 2 .na = y) && decide (r.getD 3 .na = v))
        = q.rows.filter (fun r => decide (r.getD 2 .na = y) && decide (r.getD 3 .na = v)) := by
  obtain ⟨q', hpre', hps⟩ := build_panel_ok_inv mun pib pop area p hok
  rw [hpre] at hpre'
  cases hpre'
  obtain ⟨m, pibT, popT, areaT, hm, hpib, hpop, harea, hmm, hqq⟩ :=
    build_panel_presort_ok_inv mun pib pop area q hpre
  obtain ⟨hp4, _⟩ :=
    normalize_ok_cols_len pib "pib" pibT (by decide) (by decide) (by decide) hpib
  obtain ⟨hq4, _⟩ :=
    normalize_ok_cols_len pop "pop" popT (by decide) (by decide) (by decide) hpop
  have hcq : q.cols = ["code_muni", "municipio_x", "ano", "pib", "municipio_pop", "pop",
      "municipio_y", "area", "pib_pc", "pib_km2"] := by
    rw [hqq, panelParts_cols m pibT popT areaT hp4 hq4]
  have hia : (q.colIdx "ano").getD 0 = 2 := by
    rw [DF.colIdx, hcq]
    decide
  have hib : (q.colIdx "pib").getD 0 = 3 := by
    rw [DF.colIdx, hcq]
    decide
  have key : ∀ a b : List PVal, rowLtB 2 3 b a = false →
      ∀ y1 y2 : Int, ∀ v1 v2 : ℚ,
      a.getD 2 .na = .i y1 → b.getD 2 .na = .i y2 →
      a.getD 3 .na = .q v1 → b.getD 3 .na = .q v2 →
      y1 < y2 ∨ (y1 = y2 ∧ v2 ≤ v1) := by
    intro a b h y1 y2 v1 v2 ha2 hb2 ha3 hb3
    rw [rowLtB, ha2, hb2, ha3, hb3] at h
    simp [pvLtB, pvKeyEq, pvClass, pvRat] at h
    rcases lt_trichotomy y1 y2 with hlt | heq | hgt
    · exact Or.inl hlt
    · refine Or.inr ⟨heq, ?_⟩
      exact h.2 (by exact_mod_cast heq.symm)
    · exact absurd h.1 (not_le_of_lt hgt)
  subst hps
  refine ⟨rfl, ?_, ?_, ?_⟩
  · rw [sortPanel_rows, hia, hib]
    exact isortBy_perm _ _
  · rw [sortPanel_rows, hia, hib]
    exact List.Pairwise.imp (fun h => key _ _ h)
      (pairwise_isortBy (rowLtB 2 3) (fun x y h => rowLtB_asymm 2 3 x y h)
        (fun x y z h1 h2 => rowLtB_negtrans 2 3 x y z h1 h2) q.rows)
  · intro y v
    rw [sortPanel_rows, hia, hib]
    exact filter_isortBy (rowLtB 2 3) _
      (fun a b hpa hpb => by
        simp only [Bool.and_eq_true, decide_eq_true_eq] at hpa hpb
        exact rowLtB_of_cells_eq 2 3 b a (by rw [hpb.1, hpa.1]) (by rw [hpb.2, hpa.2]))
      q.rows

theorem c4_witness :
    ∃ p q, build_panel cMun cPib cPop cArea = .ok p ∧
      build_panel_presort cMun cPib cPop cArea = .ok q ∧
      (p.cols = q.cols ∧ p.rows.Perm q.rows ∧
        p.rows.Pairwise (fun a b => ∀ y1 y2 : Int, ∀ v1 v2 : ℚ,
          a.getD 2 .na = .i y1 → b.getD 2 .na = .i y2 →
          a.getD 3 .na = .q v1 → b.getD 3 .na = .q v2 →
          y1 < y2 ∨ (y1 = y2 ∧ v2 ≤ v1)) ∧
        ∀ y v : PVal,
          p.rows.filter (fun r => decide (r.getD 2 .na = y) && decide (r.getD 3 .na = v))
            = q.rows.filter (fun r => decide (r.getD 2 .na = y) && decide (r.getD 3 .na = v))) :=
  ⟨_, _, rfl, rfl, c4_ordering cMun cPib cPop cArea _ _ rfl rfl⟩

theorem getD_prefix_of_merge (l r : DF) (ks : List String) (lj : Bool) (sl sr : String)
    (x : List PVal) (hx : x ∈ (DF.merge l r ks lj sl sr).rows) :
    ∃ lr, lr ∈ l.rows ∧ ∀ i d, i < lr.length → x.getD i d = lr.getD i d := by
  rcases (DF.mem_merge_rows l r ks lj sl sr x).mp hx with
    ⟨lr, hlr, ⟨rr, _, _, rfl⟩ | ⟨_, _, rfl⟩⟩ <;>
    exact ⟨lr, hlr, fun i d hi => getD_append_left lr _ i d hi⟩

/-- C5: a (code, year) cell pair occupies a panel row of `build_panel` exactly
when both cells are non-missing and the pair occupies a row of the normalized
value table and a row of the normalized population table: the value-population
join is an inner join on `(code_muni, ano)` taken after dropping null-keyed
rows from either side, and the later left joins and the sort neither add nor
remove key pairs. -/
theorem c5_join_exclusivity (mun pib pop area p pibT popT : DF)
    (hok : build_panel mun pib pop area = .ok p)
    (hpib : normalize_sidra_table pib "pib" false = .ok pibT)
    (hpop : normalize_sidra_table pop "pop" false = .ok popT)
    (c a : PVal) :
    (∃ row ∈ p.rows, row.getD 0 .na = c ∧ row.getD 2 .na = a) ↔
      (c ≠ .na ∧ a ≠ .na ∧
        (∃ r ∈ pibT.rows, r.getD 0 .na = c ∧ r.getD 2 .na = a) ∧
        (∃ r ∈ popT.rows, r.getD 0 .na = c ∧ r.getD 2 .na = a)) := by
  obtain ⟨q, hpre, hps⟩ := build_panel_ok_inv mun pib pop area p hok
  obtain ⟨m, pibT', popT', areaT, hm, hpib', hpop', harea, hmm, hqq⟩ :=
    build_panel_presort_ok_inv mun pib pop area q hpre
  rw [hpib] at hpib'
  cases hpib'
  rw [hpop] at hpop'
  cases hpop'
  obtain ⟨hp4, hlp⟩ :=
    normalize_ok_cols_len pib "pib" pibT (by decide) (by decide) (by decide) hpib
  obtain ⟨hq4, hlq⟩ :=
    normalize_ok_cols_len pop "pop" popT (by decide) (by decide) (by decide) hpop
  have hpc0 : pibT.cols.findIdx? (fun x => x = "code_muni") = some 0 := by
    rw [hp4]; decide
  have hpa2 : pibT.cols.findIdx? (fun x => x = "ano") = some 2 := by
    rw [hp4]; decide
  have hqc0 : popT.cols.findIdx? (fun x => x = "code_muni") = some 0 := by
    rw [hq4]; decide
  have hqa2 : popT.cols.findIdx? (fun x => x = "ano") = some 2 := by
    rw [hq4]; decide
  subst hps
  subst hqq
  constructor
  · rintro ⟨row, hrow, h0, h2⟩
    rw [sortPanel_rows, mem_isortBy] at hrow
    obtain ⟨r3, hr3, rfl⟩ := (mem_panelParts m pibT popT areaT hp4 hq4 hlp _).mp hrow
    have h8 := panelJoin3_row_len m pibT popT areaT hq4 hlp r3 hr3
    rw [getD_append_left r3 _ 0 PVal.na (by omega)] at h0
    rw [getD_append_left r3 _ 2 PVal.na (by omega)] at h2
    obtain ⟨r2, hr2, hpr3⟩ := getD_prefix_of_merge (panelJoin2 m pibT popT) (areaAgg areaT)
      ["code_muni"] true "_x" "_y" r3 hr3
    have h7 := panelJoin2_row_len m pibT popT hq4 hlp r2 hr2
    obtain ⟨j, hj, hpr2⟩ := getD_prefix_of_merge (pibPopJoin pibT popT)
      (m.select ["code_muni", "municipio"]) ["code_muni"] true "_x" "_y" r2 hr2
    have h6 := pibPopJoin_row_len pibT popT hq4 hlp j hj
    rcases (DF.mem_merge_rows (pibT.dropna ["code_muni", "ano"])
        (popT.dropna ["code_muni", "ano"]) ["code_muni", "ano"] false "" "_pop" j).mp hj with
      ⟨lr, hlr, hcase⟩
    rcases hcase with ⟨rr, hrr, hkm, rfl⟩ | ⟨hfalse, _, _⟩
    swap
    · cases hfalse
    have hlr' := (DF.mem_dropna pibT ["code_muni", "ano"] lr).mp hlr
    have hrr' := (DF.mem_dropna popT ["code_muni", "ano"] rr).mp hrr
    have hl4 := hlp lr hlr'.1
    have hc0 : c = lr.getD 0 PVal.na := by
      rw [← h0, hpr3 0 PVal.na (by omega), hpr2 0 PVal.na (by omega)]
      exact getD_append_left lr _ 0 PVal.na (by omega)
    have hc2 : a = lr.getD 2 PVal.na := by
      rw [← h2, hpr3 2 PVal.na (by omega), hpr2 2 PVal.na (by omega)]
      exact getD_append_left lr _ 2 PVal.na (by omega)
    have hlrc : pibT.cellOf lr "code_muni" = lr.getD 0 PVal.na :=
      DF.cellOf_eq pibT lr "code_muni" 0 hpc0
    have hlra : pibT.cellOf lr "ano" = lr.getD 2 PVal.na :=
      DF.cellOf_eq pibT lr "ano" 2 hpa2
    refine ⟨?_, ?_, ⟨lr, hlr'.1, hc0.symm, hc2.symm⟩, ?_⟩
    · rw [hc0, ← hlrc]
      exact hlr'.2 "code_muni" (by simp)
    · rw [hc2, ← hlra]
      exact hlr'.2 "ano" (by simp)
    · have hkc := hkm "code_muni" (by simp)
      have hka := hkm "ano" (by simp)
      refine ⟨rr, hrr'.1, ?_, ?_⟩
      · rw [← DF.cellOf_eq (popT.dropna ["code_muni", "ano"]) rr "code_muni" 0 hqc0, ← hkc,
          DF.cellOf_eq (pibT.dropna ["code_muni", "ano"]) lr "code_muni" 0 hpc0, ← hc0]
      · rw [← DF.cellOf_eq (popT.dropna ["code_muni", "ano"]) rr "ano" 2 hqa2, ← hka,
          DF.cellOf_eq (pibT.dropna ["code_muni", "ano"]) lr "ano" 2 hpa2, ← hc2]
  · rintro ⟨hcne, hane, ⟨lr, hlr, hlr0, hlr2⟩, ⟨rr, hrr, hrr0, hrr2⟩⟩
    have hl4 := hlp lr hlr
    have hlrd : lr ∈ (pibT.dropna ["code_muni", "ano"]).rows := by
      rw [DF.mem_dropna]
      refine ⟨hlr, ?_⟩
      intro k hk
      rcases (by simpa using hk : k = "code_muni" ∨ k = "ano") with rfl | rfl
      · rw [DF.cellOf_eq pibT lr "code_muni" 0 hpc0, hlr0]
        exact hcne
      · rw [DF.cellOf_eq pibT lr "ano" 2 hpa2, hlr2]
        exact hane
    have hrrd : rr ∈ (popT.dropna ["code_muni", "ano"]).rows := by
      rw [DF.mem_dropna]
      refine ⟨hrr, ?_⟩
      intro k hk
      rcases (by simpa using hk : k = "code_muni" ∨ k = "ano") with rfl | rfl
      · rw [DF.cellOf_eq popT rr "code_muni" 0 hqc0, hrr0]
        exact hcne
      · rw [DF.cellOf_eq popT rr "ano" 2 hqa2, hrr2]
        exact hane
    have hkm : keyMatch (pibT.dropna ["code_muni", "ano"]) (popT.dropna ["code_muni", "ano"])
        ["code_muni", "ano"] lr rr := by
      intro k hk
      rcases (by simpa using hk : k = "code_muni" ∨ k = "ano") with rfl | rfl
      · rw [DF.cellOf_eq (pibT.dropna ["code_muni", "ano"]) lr "code_muni" 0 hpc0,
          DF.cellOf_eq (popT.dropna ["code_muni", "ano"]) rr "code_muni" 0 hqc0, hlr0, hrr0]
      · rw [DF.cellOf_eq (pibT.dropna ["code_muni", "ano"]) lr "ano" 2 hpa2,
          DF.cellOf_eq (popT.dropna ["code_muni", "ano"]) rr "ano" 2 hqa2, hlr2, hrr2]
    have hj : lr ++ (rKeepCols (popT.dropna ["code_muni", "ano"]) ["code_muni", "ano"]).map
        (fun cc => (popT.dropna ["code_muni", "ano"]).cellOf rr cc)
        ∈ (pibPopJoin pibT popT).rows :=
      (DF.mem_merge_rows (pibT.dropna ["code_muni", "ano"]) (popT.dropna ["code_muni", "ano"])
        ["code_muni", "ano"] false "" "_pop" _).mpr ⟨lr, hlrd, Or.inl ⟨rr, hrrd, hkm, rfl⟩⟩
    obtain ⟨e1, he1, hj2⟩ := DF.merge_left_total (pibPopJoin pibT popT)
      (m.select ["code_muni", "municipio"]) ["code_muni"] "_x" "_y" _ hj
    obtain ⟨e2, he2, hj3⟩ := DF.merge_left_total (panelJoin2 m pibT popT)
      (areaAgg areaT) ["code_muni"] "_x" "_y" _ hj2
    refine ⟨_, by
      rw [sortPanel_rows, mem_isortBy]
      exact (mem_panelParts m pibT popT areaT hp4 hq4 hlp _).mpr ⟨_, hj3, rfl⟩, ?_, ?_⟩
    · simp only [List.append_assoc]
      rw [getD_append_left lr _ 0 PVal.na (by omega)]
      exact hlr0
    · simp only [List.append_assoc]
      rw [getD_append_left lr _ 2 PVal.na (by omega)]
      exact hlr2

theorem c5_witness :
    ∃ pibT popT p, normalize_sidra_table cPib "pib" false = .ok pibT ∧
      normalize_sidra_table cPop "pop" false = .ok popT ∧
      build_panel cMun cPib cPop cArea = .ok p ∧
      ((∃ row ∈ p.rows, row.getD 0 .na = .i 1 ∧ row.getD 2 .na = .i 2020) ↔
        ((PVal.i 1 ≠ .na) ∧ (PVal.i 2020 ≠ .na) ∧
          (∃ r ∈ pibT.rows, r.getD 0 .na = .i 1 ∧ r.getD 2 .na = .i 2020) ∧
          (∃ r ∈ popT.rows, r.getD 0 .na = .i 1 ∧ r.getD 2 .na = .i 2020))) :=
  ⟨_, _, _, rfl, rfl, rfl,
    c5_join_exclusivity cMun cPib cPop cArea _ _ _ rfl rfl rfl (.i 1) (.i 2020)⟩

/-- C1 counterexample: on concrete inputs whose reference spells the names
with capitals while the SIDRA tables use lowercase, the panel built by
`build_panel` has no `municipio` column at all: pandas' default `_x`/`_y`
suffixes at the name-enrichment merge (prep.py line 213) leave the value
table's spelling in `municipio_x` and put the reference's canonical spelling
in a separate `municipio_y` column, overriding nothing. -/
theorem c1_counterexample :
    build_panel cMun cPib cPop cArea =
      .ok ⟨["code_muni", "municipio_x", "ano", "pib", "municipio_pop", "pop", "municipio_y",
        "area", "pib_pc", "pib_km2"],
        [[.i 1, .s "alpha", .i 2020, .q 100, .s "alpha", .q 20, .s "Alpha", .q 10, .q 5, .q 10],
         [.i 4, .s "delta", .i 2020, .q 70, .s "delta", .q 10, .na, .q 0, .q 7, .na]]⟩ ∧
    "municipio" ∉ ["code_muni", "municipio_x", "ano", "pib", "municipio_pop", "pop",
      "municipio_y", "area", "pib_pc", "pib_km2"] ∧
    PVal.s "alpha" ≠ PVal.s "Alpha" :=
  ⟨rfl, by decide, by decide⟩

/-- C1 (amended): the panel has no single `municipio` column: its columns are
the suffixed `municipio_x` (value table), `municipio_pop` (population table)
and `municipio_y` (reference), so the reference's canonical name is attached
as a new column rather than overriding. The left join on `code_muni` behaves
as specified: a panel row whose code matches no reference row carries NA in
`municipio_y`; a row with a matching reference row carries that reference
row's name cell; and no joined value-population row is dropped — each extends
to a panel row whose first six cells are that row. -/
theorem c1_name_enrichment (mun pib pop area p m pibT popT : DF)
    (hok : build_panel mun pib pop area = .ok p)
    (hm : munPrep mun = .ok m)
    (hpib : normalize_sidra_table pib "pib" false = .ok pibT)
    (hpop : normalize_sidra_table pop "pop" false = .ok popT) :
    p.cols = ["code_muni", "municipio_x", "ano", "pib", "municipio_pop", "pop", "municipio_y",
        "area", "pib_pc", "pib_km2"] ∧
    (∀ row ∈ p.rows,
      ((∀ mr ∈ (m.select ["code_muni", "municipio"]).rows,
          (m.select ["code_muni", "municipio"]).cellOf mr "code_muni" ≠ row.getD 0 .na) →
        row.getD 6 .na = .na) ∧
      ((∃ mr ∈ (m.select ["code_muni", "municipio"]).rows,
          (m.select ["code_muni", "municipio"]).cellOf mr "code_muni" = row.getD 0 .na) →
        ∃ mr ∈ (m.select ["code_muni", "municipio"]).rows,
          (m.select ["code_muni", "municipio"]).cellOf mr "code_muni" = row.getD 0 .na ∧
          row.getD 6 .na = (m.select ["code_muni", "municipio"]).cellOf mr "municipio")) ∧
    (∀ j ∈ (pibPopJoin pibT popT).rows, ∃ row ∈ p.rows, row.take 6 = j) := by
  obtain ⟨q, hpre, hps⟩ := build_panel_ok_inv mun pib pop area p hok
  obtain ⟨m', pibT', popT', areaT, hm', hpib', hpop', harea, hmm, hqq⟩ :=
    build_panel_presort_ok_inv mun pib pop area q hpre
  rw [hm] at hm'
  cases hm'
  rw [hpib] at hpib'
  cases hpib'
  rw [hpop] at hpop'
  cases hpop'
  obtain ⟨hp4, hlp⟩ :=
    normalize_ok_cols_len pib "pib" pibT (by decide) (by decide) (by decide) hpib
  obtain ⟨hq4, hlq⟩ :=
    normalize_ok_cols_len pop "pop" popT (by decide) (by decide) (by decide) hpop
  have hjc : ∀ j : List PVal, (pibPopJoin pibT popT).cellOf j "code_muni" = j.getD 0 PVal.na :=
    fun j => DF.cellOf_eq _ j "code_muni" 0
      (by rw [pibPopJoin_cols pibT popT hp4 hq4]; decide)
  have hrk : rKeepCols (m.select ["code_muni", "municipio"]) ["code_muni"] = ["municipio"] := by
    rw [rKeepCols, DF.select_cols]
    decide
  subst hps
  subst hqq
  refine ⟨?_, ?_, ?_⟩
  · rw [sortPanel_cols, panelParts_cols m pibT popT areaT hp4 hq4]
  · intro row hrow
    rw [sortPanel_rows, mem_isortBy] at hrow
    obtain ⟨r3, hr3, hroweq⟩ := (mem_panelParts m pibT popT areaT hp4 hq4 hlp row).mp hrow
    have h8 := panelJoin3_row_len m pibT popT areaT hq4 hlp r3 hr3
    have hR0 : row.getD 0 PVal.na = r3.getD 0 PVal.na := by
      rw [hroweq]
      exact getD_append_left r3 _ 0 PVal.na (by omega)
    have hR6 : row.getD 6 PVal.na = r3.getD 6 PVal.na := by
      rw [hroweq]
      exact getD_append_left r3 _ 6 PVal.na (by omega)
    obtain ⟨r2, hr2, hpr3⟩ := getD_prefix_of_merge (panelJoin2 m pibT popT) (areaAgg areaT)
      ["code_muni"] true "_x" "_y" r3 hr3
    have h7 := panelJoin2_row_len m pibT popT hq4 hlp r2 hr2
    have h30 : r3.getD 0 PVal.na = r2.getD 0 PVal.na := hpr3 0 PVal.na (by omega)
    have h36 : r3.getD 6 PVal.na = r2.getD 6 PVal.na := hpr3 6 PVal.na (by omega)
    rcases (DF.mem_merge_rows (pibPopJoin pibT popT) (m.select ["code_muni", "municipio"])
        ["code_muni"] true "_x" "_y" r2).mp hr2 with ⟨j, hj, hbr⟩
    have h6 := pibPopJoin_row_len pibT popT hq4 hlp j hj
    rcases hbr with ⟨mr, hmr, hkm, heq⟩ | ⟨_, hnone, heq⟩
    · rw [hrk] at heq
      simp only [List.map_cons, List.map_nil] at heq
      subst heq
      have h20 : (j ++ [(m.select ["code_muni", "municipio"]).cellOf mr "municipio"]).getD 0
          PVal.na = j.getD 0 PVal.na := getD_append_left j _ 0 PVal.na (by omega)
      have h26 : (j ++ [(m.select ["code_muni", "municipio"]).cellOf mr "municipio"]).getD 6
          PVal.na = (m.select ["code_muni", "municipio"]).cellOf mr "municipio" := by
        rw [show (6 : Nat) = j.length + 0 by omega, getD_append_right]
        rfl
      have hceq : (m.select ["code_muni", "municipio"]).cellOf mr "code_muni"
          = row.getD 0 PVal.na := by
        rw [hR0, h30, h20, ← hjc j]
        exact (hkm "code_muni" (by simp)).symm
      refine ⟨?_, ?_⟩
      · intro hno
        exact absurd hceq (hno mr hmr)
      · intro _
        refine ⟨mr, hmr, hceq, ?_⟩
        rw [hR6, h36]
        exact h26
    · rw [hrk] at heq
      simp only [List.map_cons, List.map_nil] at heq
      subst heq
      have h20 : (j ++ [PVal.na]).getD 0 PVal.na = j.getD 0 PVal.na :=
        getD_append_left j _ 0 PVal.na (by omega)
      have h26 : (j ++ [PVal.na]).getD 6 PVal.na = PVal.na := by
        rw [show (6 : Nat) = j.length + 0 by omega, getD_append_right]
        rfl
      refine ⟨?_, ?_⟩
      · intro _
        rw [hR6, h36]
        exact h26
      · rintro ⟨mr, hmr, hceq⟩
        refine absurd ?_ (hnone mr hmr)
        intro k hk
        have hkc : k = "code_muni" := by simpa using hk
        subst hkc
        rw [hjc j, ← h20, ← h30, ← hR0]
        exact hceq.symm
  · intro j hj
    have h6 := pibPopJoin_row_len pibT popT hq4 hlp j hj
    obtain ⟨e1, he1, hj2⟩ := DF.merge_left_total (pibPopJoin pibT popT)
      (m.select ["code_muni", "municipio"]) ["code_muni"] "_x" "_y" j hj
    obtain ⟨e2, he2, hj3⟩ := DF.merge_left_total (panelJoin2 m pibT popT)
      (areaAgg areaT) ["code_muni"] "_x" "_y" _ hj2
    refine ⟨_, by
      rw [sortPanel_rows, mem_isortBy]
      exact (mem_panelParts m pibT popT areaT hp4 hq4 hlp _).mpr ⟨_, hj3, rfl⟩, ?_⟩
    simp only [List.append_assoc]
    rw [show (6 : Nat) = j.length from h6.symm]
    exact List.take_left j _

theorem c1_witness :
    ∃ p m pibT popT, build_panel cMun cPib cPop cArea = .ok p ∧
      munPrep cMun = .ok m ∧
      normalize_sidra_table cPib "pib" false = .ok pibT ∧
      normalize_sidra_table cPop "pop" false = .ok popT ∧
      (p.cols = ["code_muni", "municipio_x", "ano", "pib", "municipio_pop", "pop",
          "municipio_y", "area", "pib_pc", "pib_km2"] ∧
        (∀ row ∈ p.rows,
          ((∀ mr ∈ (m.select ["code_muni", "municipio"]).rows,
              (m.select ["code_muni", "municipio"]).cellOf mr "code_muni" ≠ row.getD 0 .na) →
            row.getD 6 .na = .na) ∧
          ((∃ mr ∈ (m.select ["code_muni", "municipio"]).rows,
              (m.select ["code_muni", "municipio"]).cellOf mr "code_muni" = row.getD 0 .na) →
            ∃ mr ∈ (m.select ["code_muni", "municipio"]).rows,
              (m.select ["code_muni", "municipio"]).cellOf mr "code_muni" = row.getD 0 .na ∧
              row.getD 6 .na = (m.select ["code_muni", "municipio"]).cellOf mr "municipio")) ∧
        (∀ j ∈ (pibPopJoin pibT popT).rows, ∃ row ∈ p.rows, row.take 6 = j)) :=
  ⟨_, _, _, _, rfl, rfl, rfl, rfl,
    c1_name_enrichment cMun cPib cPop cArea _ _ _ _ rfl rfl rfl rfl⟩

theorem idxFilter_length {α : Type} (p : α → Bool) (n : Nat) (l : List α) :
    (idxFilter p n l).length = (l.filter p).length := by
  induction l generalizing n with
  | nil => rfl
  | cons x xs ih =>
    rw [idxFilter, List.filter_cons]
    by_cases h : p x <;> simp [h, ih]

theorem survIdx_length (t : DF) :
    (survIdx t).length = (_drop_header_like_rows t).rows.length := by
  rw [survIdx, _drop_header_like_rows]
  by_cases h : t.cols.contains "V" = true
  · rw [if_pos h, if_pos h]
    exact idxFilter_length _ 0 _
  · rw [if_neg h, if_neg h]
    simp

theorem alignTo_length (o s : List Nat) (v : List PVal) :
    (alignTo o s v).length = o.length := by
  simp [alignTo]

theorem mem_alignTo (o s : List Nat) (vs : List PVal) (x : PVal)
    (hx : x ∈ alignTo o s vs) : x = .na ∨ x ∈ vs := by
  rw [alignTo] at hx
  obtain ⟨l, _, hl⟩ := List.mem_map.mp hx
  cases hfi : s.findIdx? (fun j => j = l) with
  | none =>
    rw [hfi] at hl
    left
    exact hl.symm
  | some i =>
    rw [hfi] at hl
    rw [← hl]
    rcases getD_mem_or_default vs i PVal.na with hm | hm
    · right; exact hm
    · left; exact hm

theorem outIdxOf_length (t : DF) :
    (outIdxOf t).length = (_drop_header_like_rows t).rows.length := by
  rw [outIdxOf]
  split
  · exact survIdx_length t
  · simp

theorem munisColIx_length (t : DF) :
    (munisColIx t).length = (_drop_header_like_rows t).rows.length := by
  rw [munisColIx]
  split
  · rw [alignTo_length, outIdxOf_length]
  · split
    · rw [alignTo_length, outIdxOf_length]
    · rw [alignTo_length, outIdxOf_length]

theorem anosColIx_ok_length (t : DF) (as : List PVal) (h : anosColIx t = .ok as) :
    as.length = (_drop_header_like_rows t).rows.length := by
  rw [anosColIx] at h
  cases htc : _extract_time_col (_drop_header_like_rows t) with
  | some c =>
    rw [htc] at h
    dsimp only at h
    cases hti : toInt64Col ((_drop_header_like_rows t).col c) with
    | error e => rw [hti] at h; cases h
    | ok vs =>
      rw [hti] at h
      cases h
      rw [alignTo_length, outIdxOf_length]
  | none =>
    rw [htc] at h
    dsimp only at h
    cases h
    rw [alignTo_length, outIdxOf_length]

theorem anosColIx_ok_cells (t : DF) (as : List PVal) (h : anosColIx t = .ok as) :
    ∀ v ∈ as, v = .na ∨ ∃ n, v = .i n := by
  rw [anosColIx] at h
  cases htc : _extract_time_col (_drop_header_like_rows t) with
  | some c =>
    rw [htc] at h
    dsimp only at h
    cases hti : toInt64Col ((_drop_header_like_rows t).col c) with
    | error e => rw [hti] at h; cases h
    | ok vs =>
      rw [hti] at h
      cases h
      intro v hv
      rcases mem_alignTo _ _ _ _ hv with hna | hm
      · left; exact hna
      · exact toInt64Col_ok_cells _ _ hti v hm
  | none =>
    rw [htc] at h
    dsimp only at h
    cases h
    intro v hv
    rcases mem_alignTo _ _ _ _ hv with hna | hm
    · left; exact hna
    · left; exact List.eq_of_mem_replicate hm

theorem valsColIx_length (t : DF) :
    (valsColIx t).length = (_drop_header_like_rows t).rows.length := by
  rw [valsColIx, alignTo_length, outIdxOf_length]

theorem castInt64Col_ok_all_safe (l ws : List PVal) (h : castInt64Col l = .ok ws) :
    ∀ v ∈ l, intSafeB v = true := by
  induction l generalizing ws with
  | nil => intro v hv; cases hv
  | cons v t ih =>
    rw [castInt64Col] at h
    cases hc : castInt64Cell v with
    | error e => rw [hc] at h; cases h
    | ok w =>
      cases ht : castInt64Col t with
      | error e => rw [hc, ht] at h; cases h
      | ok ws' =>
        intro x hx
        rcases List.mem_cons.mp hx with rfl | hx
        · cases x with
          | q y =>
            by_cases hd : y.den = 1
            · simp [intSafeB, hd]
            · simp [castInt64Cell, hd] at hc
          | i n => rfl
          | na => rfl
          | s z => simp [castInt64Cell] at hc
          | inf => simp [castInt64Cell] at hc
          | ninf => simp [castInt64Cell] at hc
        · exact ih ws' ht x hx

theorem toInt64Col_error_noncast (l : List PVal) (e : String) (h : toInt64Col l = .error e) :
    ∃ v ∈ l, intSafeB (toNumericCell v) = false := by
  by_contra hno
  push_neg at hno
  obtain ⟨ws, hws⟩ := toInt64Col_ok_of l (fun v hv => by
    rcases Bool.eq_false_or_eq_true (intSafeB (toNumericCell v)) with ht | hf
    · exact ht
    · exact absurd hf (hno v hv))
  rw [hws] at h
  cases h

theorem toInt64Col_error_of_noncast (l : List PVal)
    (h : ∃ v ∈ l, intSafeB (toNumericCell v) = false) :
    ∃ e, toInt64Col l = .error e := by
  obtain ⟨v, hv, hbad⟩ := h
  rcases ht : toInt64Col l with e | ws
  · exact ⟨e, rfl⟩
  · rw [toInt64Col] at ht
    have := castInt64Col_ok_all_safe _ _ ht (toNumericCell v) (List.mem_map_of_mem _ hv)
    rw [hbad] at this
    cases this

theorem normalize_ix_noV (t : DF) (vn : String) (k : Bool)
    (h : (_drop_header_like_rows t).cols.contains "V" = false) :
    normalize_sidra_table_ix t vn k = .error missingVMsg := by
  rw [normalize_sidra_table_ix]
  dsimp only
  rw [if_neg (by rw [h]; exact Bool.false_ne_true)]

theorem normalize_ix_codes_error (t : DF) (vn : String) (k : Bool) (e : String)
    (hV : (_drop_header_like_rows t).cols.contains "V" = true)
    (hcs : codesCol (_drop_header_like_rows t) = .error e) :
    normalize_sidra_table_ix t vn k = .error e := by
  rw [normalize_sidra_table_ix]
  dsimp only
  rw [if_pos hV, hcs]

theorem normalize_ix_anos_error (t : DF) (vn : String) (k : Bool) (codes : List PVal) (e : String)
    (hV : (_drop_header_like_rows t).cols.contains "V" = true)
    (hcs : codesCol (_drop_header_like_rows t) = .ok codes)
    (has : anosColIx t = .error e) :
    normalize_sidra_table_ix t vn k = .error e := by
  rw [normalize_sidra_table_ix]
  dsimp only
  rw [if_pos hV, hcs, has]

/-- Success-path equation for the alignment-aware model: with a `V` column and
both nullable-integer casts succeeding, the result is the canonical
four-column table assembled from the aligned columns, filtered to rows with a
non-missing value (the line 163-164 re-casts are the identity on the
nullable-integer cells they meet). -/
theorem normalize_ix_eq_of_ok_cols (t : DF) (vn : String)
    (hv1 : vn ≠ "code_muni") (hv2 : vn ≠ "municipio") (hv3 : vn ≠ "ano")
    (codes anos : List PVal)
    (hV : (_drop_header_like_rows t).cols.contains "V" = true)
    (hcs : codesCol (_drop_header_like_rows t) = .ok codes)
    (has : anosColIx t = .ok anos) :
    normalize_sidra_table_ix t vn false =
      .ok ⟨["code_muni", "municipio", "ano", vn],
        (mkRows4 codes (munisColIx t) anos (valsColIx t)).filter
          (fun r => !pvIsNa (r.getD 3 .na))⟩ := by
  have hlm : (munisColIx t).length = codes.length := by
    rw [munisColIx_length, codesCol_ok_length _ _ hcs]
  have hla : anos.length = codes.length := by
    rw [anosColIx_ok_length t anos has, codesCol_ok_length _ _ hcs]
  have hlv : (valsColIx t).length = codes.length := by
    rw [valsColIx_length, codesCol_ok_length _ _ hcs]
  rw [normalize_sidra_table_ix]
  dsimp only
  rw [if_pos hV, hcs, has]
  dsimp only
  simp only [Bool.false_eq_true, if_false]
  rw [assign_chain _ _ _ _ vn hv1 hv2 hv3]
  have hcell3 : ∀ r : List PVal,
      DF.cellOf ⟨["code_muni", "municipio", "ano", vn], mkRows4 codes
        (munisColIx t) anos (valsColIx t)⟩ r vn
      = r.getD 3 .na := by
    intro r
    rw [DF.cellOf, DF.colIdx]
    dsimp only
    rw [colIdx_quad3 vn hv1 hv2 hv3]
  simp only [hcell3]
  set rows2 := (mkRows4 codes (munisColIx t) anos (valsColIx t)).filter
    (fun r => !pvIsNa (r.getD 3 .na)) with hrows2
  have hshape : ∀ r ∈ rows2, ∃ i, i < codes.length ∧
      r = [codes.getD i .na, (munisColIx t).getD i .na, anos.getD i .na,
        (valsColIx t).getD i .na] := by
    intro r hr
    exact mem_filter_mkRows4_shape _ _ _ _ hlm hla hlv _ r hr
  have hcol0 : DF.col ⟨["code_muni", "municipio", "ano", vn], rows2⟩ "code_muni"
      = rows2.map (fun r => r.getD 0 .na) := by
    rw [DF.col]
    refine List.map_congr_left (fun r _ => ?_)
    rw [DF.cellOf, DF.colIdx]
    dsimp only
    rw [colIdx_quad0 vn]
  have hcast0 : castInt64Col (rows2.map (fun r => r.getD 0 .na)) =
      .ok (rows2.map (fun r => r.getD 0 .na)) := by
    refine castInt64Col_id _ (fun v hv => ?_)
    obtain ⟨r, hr, rfl⟩ := List.mem_map.mp hv
    obtain ⟨i, hi, rfl⟩ := hshape r hr
    simp only [List.getD_cons_zero]
    rcases getD_mem_or_default codes i PVal.na with hm | hm
    · exact codesCol_ok_cells _ _ hcs _ hm
    · left; exact hm
  have hwf2 : ∀ r ∈ rows2, 0 < r.length := by
    intro r hr
    obtain ⟨i, _, rfl⟩ := hshape r hr
    simp
  have hself0 : (DF.mk ["code_muni", "municipio", "ano", vn] rows2).assign "code_muni"
      (DF.col ⟨["code_muni", "municipio", "ano", vn], rows2⟩ "code_muni")
      = ⟨["code_muni", "municipio", "ano", vn], rows2⟩ := by
    exact DF.assign_col_self _ _ 0 (by simp) (colIdx_quad0 vn) hwf2
  rw [hcol0, hcast0]
  dsimp only
  rw [← hcol0, hself0]
  have hcol2 : DF.col ⟨["code_muni", "municipio", "ano", vn], rows2⟩ "ano"
      = rows2.map (fun r => r.getD 2 .na) := by
    rw [DF.col]
    refine List.map_congr_left (fun r _ => ?_)
    rw [DF.cellOf, DF.colIdx]
    dsimp only
    rw [colIdx_quad2 vn]
  have hcast2 : castInt64Col (rows2.map (fun r => r.getD 2 .na)) =
      .ok (rows2.map (fun r => r.getD 2 .na)) := by
    refine castInt64Col_id _ (fun v hv => ?_)
    obtain ⟨r, hr, rfl⟩ := List.mem_map.mp hv
    obtain ⟨i, hi, rfl⟩ := hshape r hr
    simp only [List.getD_cons_succ, List.getD_cons_zero]
    rcases getD_mem_or_default anos i PVal.na with hm | hm
    · exact anosColIx_ok_cells t _ has _ hm
    · left; exact hm
  have hwf2' : ∀ r ∈ rows2, 2 < r.length := by
    intro r hr
    obtain ⟨i, _, rfl⟩ := hshape r hr
    simp
  have hself2 : (DF.mk ["code_muni", "municipio", "ano", vn] rows2).assign "ano"
      (DF.col ⟨["code_muni", "municipio", "ano", vn], rows2⟩ "ano")
      = ⟨["code_muni", "municipio", "ano", vn], rows2⟩ := by
    exact DF.assign_col_self _ _ 2 (by simp) (colIdx_quad2 vn) hwf2'
  rw [hcol2, hcast2]
  dsimp only
  rw [← hcol2, hself2]

/-- Counterexample to C2 (two parts). First, a raw table with a `V` column on
which normalization raises: the year cell `"12.5"` parses to a non-integral
float and pandas' `astype("Int64")` fails on it, so missing `V` is not the
only fatal condition. Second, the degradation described by the claim is also
wrong for the name fallback: on a table whose header-like first row is
dropped, the surviving rows keep labels `[1, 2]`, the line-139 fallback `""`
series carries RangeIndex `[0, 1]`, and pandas' realignment leaves the last
row's `municipio` missing, not the empty string. -/
theorem c2_counterexample :
    (cBadYear.cols.contains "V" = true ∧
      normalize_sidra_table_ix cBadYear "pib" false =
        .error "cannot safely cast non-equivalent float64 to int64") ∧
    (normalize_sidra_table_ix cHeaderDrop "pib" false =
      .ok ⟨["code_muni", "municipio", "ano", "pib"],
        [[.i 1, .s "", .na, .q 10], [.i 2, .na, .na, .q 20]]⟩ ∧
      PVal.na ≠ PVal.s "") :=
  ⟨⟨rfl, rfl⟩, rfl, by decide⟩

/-- C2 (amended): with a `V` column present (default `keep_extra_dims`, an
indicator name distinct from the canonical key columns), normalization raises
exactly when a surviving cell of the discovered code column or time column
parses (by the plain `pd.to_numeric`) to a value the `Int64` cast cannot
safely take — a non-integral float; heuristic misses and unparsable strings
never raise. On success the degradations are: no code column gives all-null
`code_muni`, no time column gives all-null `ano`, and no name column gives
`municipio` cells that are the empty string or missing — missing on the rows
whose label survives at or beyond the survivor count, since pandas realigns
the RangeIndex fallback series to the filtered frame's index. -/
theorem c2_raise_characterization (t : DF) (vn : String)
    (hv1 : vn ≠ "code_muni") (hv2 : vn ≠ "municipio") (hv3 : vn ≠ "ano")
    (hV : t.cols.contains "V" = true) :
    ((∃ e, normalize_sidra_table_ix t vn false = .error e) ↔
      ((∃ v ∈ codeSrcCells t, intSafeB (toNumericCell v) = false) ∨
       (∃ v ∈ timeSrcCells t, intSafeB (toNumericCell v) = false))) ∧
    ∀ out, normalize_sidra_table_ix t vn false = .ok out →
      (chosenCodeCol (_drop_header_like_rows t) = none →
        ∀ row ∈ out.rows, row.getD 0 .na = .na) ∧
      (muniNameCol (_drop_header_like_rows t) = none →
        terrNameCol (_drop_header_like_rows t) = none →
        ∀ row ∈ out.rows, row.getD 1 .na = .s "" ∨ row.getD 1 .na = .na) ∧
      (_extract_time_col (_drop_header_like_rows t) = none →
        ∀ row ∈ out.rows, row.getD 2 .na = .na) := by
  have hVd : (_drop_header_like_rows t).cols.contains "V" = true := by
    rw [drop_header_cols]
    exact hV
  constructor
  · constructor
    · rintro ⟨e, he⟩
      rcases hcs : codesCol (_drop_header_like_rows t) with ec | codes
      · left
        rw [codesCol] at hcs
        rcases hcc : chosenCodeCol (_drop_header_like_rows t) with _ | c
        · rw [hcc] at hcs
          cases hcs
        · rw [hcc] at hcs
          obtain ⟨v, hv, hu⟩ := toInt64Col_error_noncast _ _ hcs
          refine ⟨v, ?_, hu⟩
          rw [codeSrcCells, hcc]
          exact hv
      · rcases has : anosColIx t with ea | anos
        · right
          rw [anosColIx] at has
          rcases htc : _extract_time_col (_drop_header_like_rows t) with _ | c
          · rw [htc] at has
            cases has
          · rw [htc] at has
            dsimp only at has
            rcases hti : toInt64Col ((_drop_header_like_rows t).col c) with e2 | vs
            · obtain ⟨v, hv, hu⟩ := toInt64Col_error_noncast _ _ hti
              refine ⟨v, ?_, hu⟩
              rw [timeSrcCells, htc]
              exact hv
            · rw [hti] at has
              cases has
        · rw [normalize_ix_eq_of_ok_cols t vn hv1 hv2 hv3 codes anos hVd hcs has] at he
          cases he
    · rintro (⟨v, hv, hu⟩ | ⟨v, hv, hu⟩)
      · rw [codeSrcCells] at hv
        rcases hcc : chosenCodeCol (_drop_header_like_rows t) with _ | c
        · rw [hcc] at hv
          cases hv
        · rw [hcc] at hv
          obtain ⟨e, he⟩ := toInt64Col_error_of_noncast _ ⟨v, hv, hu⟩
          refine ⟨e, normalize_ix_codes_error t vn false e hVd ?_⟩
          rw [codesCol, hcc]
          exact he
      · rw [timeSrcCells] at hv
        rcases htc : _extract_time_col (_drop_header_like_rows t) with _ | c
        · rw [htc] at hv
          cases hv
        · rw [htc] at hv
          obtain ⟨e2, he2⟩ := toInt64Col_error_of_noncast _ ⟨v, hv, hu⟩
          rcases hcs : codesCol (_drop_header_like_rows t) with ec | codes
          · exact ⟨ec, normalize_ix_codes_error t vn false ec hVd hcs⟩
          · refine ⟨e2, normalize_ix_anos_error t vn false codes e2 hVd hcs ?_⟩
            rw [anosColIx, htc]
            dsimp only
            rw [he2]
  · intro out hok
    rcases hcs : codesCol (_drop_header_like_rows t) with ec | codes
    · rw [normalize_ix_codes_error t vn false ec hVd hcs] at hok
      cases hok
    rcases has : anosColIx t with ea | anos
    · rw [normalize_ix_anos_error t vn false codes ea hVd hcs has] at hok
      cases hok
    rw [normalize_ix_eq_of_ok_cols t vn hv1 hv2 hv3 codes anos hVd hcs has] at hok
    cases hok
    have hlm : (munisColIx t).length = codes.length := by
      rw [munisColIx_length, codesCol_ok_length _ _ hcs]
    have hla : anos.length = codes.length := by
      rw [anosColIx_ok_length t anos has, codesCol_ok_length _ _ hcs]
    have hlv : (valsColIx t).length = codes.length := by
      rw [valsColIx_length, codesCol_ok_length _ _ hcs]
    refine ⟨?_, ?_, ?_⟩
    · intro hnone row hrow
      have hcs' : codesCol (_drop_header_like_rows t)
          = .ok (List.replicate (_drop_header_like_rows t).rows.length .na) := by
        rw [codesCol, hnone]
      rw [hcs] at hcs'
      cases hcs'
      obtain ⟨i, hi, rfl⟩ := mem_filter_mkRows4_shape _ _ _ _ hlm hla hlv _ row hrow
      simp only [List.getD_cons_zero]
      exact getD_replicate_of_lt _ _ _ _ (by simpa using hi)
    · intro hn1 hn2 row hrow
      obtain ⟨i, hi, rfl⟩ := mem_filter_mkRows4_shape _ _ _ _ hlm hla hlv _ row hrow
      simp only [List.getD_cons_succ, List.getD_cons_zero]
      have hmu : munisColIx t = alignTo (outIdxOf t)
          (List.range (_drop_header_like_rows t).rows.length)
          (List.replicate (_drop_header_like_rows t).rows.length (PVal.s "")) := by
        rw [munisColIx, hn1, hn2]
      rw [hmu]
      rcases getD_mem_or_default (alignTo (outIdxOf t)
          (List.range (_drop_header_like_rows t).rows.length)
          (List.replicate (_drop_header_like_rows t).rows.length (PVal.s ""))) i PVal.na
        with hm | hm
      · rcases mem_alignTo _ _ _ _ hm with hna | hmem
        · right; exact hna
        · left; exact List.eq_of_mem_replicate hmem
      · right; exact hm
    · intro hnone row hrow
      obtain ⟨i, hi, rfl⟩ := mem_filter_mkRows4_shape _ _ _ _ hlm hla hlv _ row hrow
      simp only [List.getD_cons_succ, List.getD_cons_zero]
      have has' : anosColIx t = .ok (alignTo (outIdxOf t)
          (List.range (_drop_header_like_rows t).rows.length)
          (List.replicate (_drop_header_like_rows t).rows.length PVal.na)) := by
        rw [anosColIx, hnone]
      rw [has] at has'
      cases has'
      rcases getD_mem_or_default (alignTo (outIdxOf t)
          (List.range (_drop_header_like_rows t).rows.length)
          (List.replicate (_drop_header_like_rows t).rows.length PVal.na)) i PVal.na
        with hm | hm
      · rcases mem_alignTo _ _ _ _ hm with hna | hmem
        · exact hna
        · exact List.eq_of_mem_replicate hmem
      · exact hm

/-- Witness for C2 (amended) on the table whose code and year cells are
unparsable strings (`"zz"`, `"??"`): the plain parse leaves only NA there, so
the raise-characterization's right side is false and normalization succeeds,
with the degradation clauses available for the successful output. -/
theorem c2_witness :
    ((∃ e, normalize_sidra_table_ix cMessy "pib" false = .error e) ↔
      ((∃ v ∈ codeSrcCells cMessy, intSafeB (toNumericCell v) = false) ∨
       (∃ v ∈ timeSrcCells cMessy, intSafeB (toNumericCell v) = false))) ∧
    ∀ out, normalize_sidra_table_ix cMessy "pib" false = .ok out →
      (chosenCodeCol (_drop_header_like_rows cMessy) = none →
        ∀ row ∈ out.rows, row.getD 0 .na = .na) ∧
      (muniNameCol (_drop_header_like_rows cMessy) = none →
        terrNameCol (_drop_header_like_rows cMessy) = none →
        ∀ row ∈ out.rows, row.getD 1 .na = .s "" ∨ row.getD 1 .na = .na) ∧
      (_extract_time_col (_drop_header_like_rows cMessy) = none →
        ∀ row ∈ out.rows, row.getD 2 .na = .na) :=
  c2_raise_characterization cMessy "pib" (by decide) (by decide) (by decide) (by decide)

theorem findIdx?_range'_aux (n : Nat) : ∀ (s l i : Nat),
    List.findIdx? (fun j => j = l) (List.range' s n) i =
      if s ≤ l ∧ l < s + n then some (i + (l - s)) else none := by
  induction n with
  | zero =>
    intro s l i
    rw [if_neg (by omega)]
    rfl
  | succ n ih =>
    intro s l i
    rw [show List.range' s (n + 1) = s :: List.range' (s + 1) n from rfl, List.findIdx?_cons]
    by_cases hsl : s = l
    · subst hsl
      rw [if_pos (by simp), if_pos (by omega)]
      congr 1
      omega
    · rw [if_neg (by simpa using hsl), ih (s + 1) l (i + 1)]
      by_cases hin : s + 1 ≤ l ∧ l < s + 1 + n
      · rw [if_pos hin, if_pos (by omega)]
        congr 1
        omega
      · rw [if_neg hin, if_neg (by omega)]

theorem findIdx?_range (n l : Nat) :
    (List.range n).findIdx? (fun j => j = l) = if l < n then some l else none := by
  rw [List.range_eq_range', findIdx?_range'_aux n 0 l 0]
  by_cases hl : l < n
  · rw [if_pos (by omega), if_pos hl]
    congr 1
    omega
  · rw [if_neg (by omega), if_neg hl]

theorem alignTo_range_self (n : Nat) (vals : List PVal) (hlen : vals.length = n) :
    alignTo (List.range n) (List.range n) vals = vals := by
  rw [alignTo]
  refine List.ext_getElem (by simpa using hlen.symm) (fun i h1 h2 => ?_)
  rw [List.getElem_map]
  have hi : i < n := by simpa using h1
  rw [List.getElem_range, findIdx?_range n i, if_pos hi]
  dsimp only
  rw [List.getD_eq_getElem _ _ (by omega)]

/-- When the header filter drops nothing, the filtered frame keeps its
RangeIndex, every series aligns positionally, and the alignment-aware model
coincides with the positional one — the regime of every concrete table used
by the witnesses. -/
theorem normalize_ix_agrees (t : DF) (vn : String)
    (h : survIdx t = List.range t.rows.length) :
    normalize_sidra_table_ix t vn false = normalize_sidra_table t vn false := by
  have hn : (_drop_header_like_rows t).rows.length = t.rows.length := by
    rw [← survIdx_length t, h]
    simp
  have hout : outIdxOf t = List.range (_drop_header_like_rows t).rows.length := by
    rw [outIdxOf]
    split
    · rw [h, hn]
    · rfl
  have hmm : munisColIx t = munisCol (_drop_header_like_rows t) := by
    rw [munisColIx, munisCol]
    cases hm1 : muniNameCol (_drop_header_like_rows t) with
    | some c =>
      dsimp only
      rw [hout, h, hn]
      exact alignTo_range_self _ _ (by rw [List.length_map, DF.col_length, hn])
    | none =>
      dsimp only
      cases hm2 : terrNameCol (_drop_header_like_rows t) with
      | some c =>
        dsimp only
        rw [hout, h, hn]
        exact alignTo_range_self _ _ (by rw [List.length_map, DF.col_length, hn])
      | none =>
        dsimp only
        rw [hout, hn]
        exact alignTo_range_self _ _ (by rw [List.length_replicate])
  have hva : valsColIx t = valsCol (_drop_header_like_rows t) := by
    rw [valsColIx, hout, h, hn]
    exact alignTo_range_self _ _ (by rw [valsCol_length, hn])
  have haa : anosColIx t = anosCol (_drop_header_like_rows t) := by
    rw [anosColIx, anosCol]
    cases ht1 : _extract_time_col (_drop_header_like_rows t) with
    | some c =>
      dsimp only
      cases hti : toInt64Col ((_drop_header_like_rows t).col c) with
      | error e => rfl
      | ok vs =>
        dsimp only
        rw [hout, h, hn]
        rw [alignTo_range_self _ _ (by rw [toInt64Col_ok_length _ _ hti, DF.col_length, hn])]
    | none =>
      dsimp only
      rw [hout, hn]
      rw [alignTo_range_self _ _ (by rw [List.length_replicate])]
  rw [normalize_sidra_table_ix, normalize_sidra_table]
  dsimp only
  rw [hmm, haa, hva]
  simp only [Bool.false_eq_true, if_false]
